import Mathlib

/-!
Verification development for the SPL query explainer (`query_test.py` and
`back/explain.py`).  The Python module parses an SPL query with a fixed set
of regular expressions, classifies intent heuristically, summarizes,
validates and renders a fixed-section Markdown document, and wraps an
optional external LLM engine behind a facade.

The embedding below models the exact Python `re` semantics used by the
module (leftmost non-overlapping scans, lazy `(.+?)` captures bounded by a
lookahead, greedy character-class captures, word boundaries, `$` matching
at end of text or before a final newline).  Character classes are modeled
at ASCII granularity (`\w` as alphanumeric-or-underscore, `\s` as the six
ASCII whitespace characters), matching the documented behavior of the
module on its ASCII-command inputs.
-/

namespace SkLlm

/-- Python `\s` (ASCII): space, tab, newline, carriage return, vertical tab, form feed. -/
def isPySpace (c : Char) : Bool :=
  c = ' ' || c = '\t' || c = '\n' || c = '\r' || c = '\x0b' || c = '\x0c'

/-- Python `\w` (ASCII): letters, digits, underscore. -/
def isWordChar (c : Char) : Bool :=
  c.isAlphanum || c = '_'

/-- Character class of `RE_INDEX` values: `[\w:-]`. -/
def isIndexVal (c : Char) : Bool :=
  isWordChar c || c = ':' || c = '-'

/-- Character class of `RE_SOURCETYPE` values: `[\w:.-]`. -/
def isStypeVal (c : Char) : Bool :=
  isWordChar c || c = ':' || c = '.' || c = '-'

/-- Character class of `RE_EARLIEST`/`RE_LATEST` values: `[\w@:.+-]`. -/
def isTimeVal (c : Char) : Bool :=
  isWordChar c || c = '@' || c = ':' || c = '.' || c = '+' || c = '-'

/-- Character class of the `maxspan` capture: `[\w:]`. -/
def isSpanVal (c : Char) : Bool :=
  isWordChar c || c = ':'

/-- Python `str.strip()` on the ASCII whitespace set. -/
def pyStrip (cs : List Char) : List Char :=
  ((cs.dropWhile isPySpace).reverse.dropWhile isPySpace).reverse

/-- Build a `String` back from a character list. -/
def strOf (cs : List Char) : String := ⟨cs⟩

/-- Whitespace-run collapapse used by `_norm_ws`: every maximal run of
whitespace becomes a single space (`re.sub(r"\s+", " ", ...)`). -/
def collapseWs : Bool → List Char → List Char
  | _, [] => []
  | prevSp, c :: rest =>
    if isPySpace c then
      if prevSp then collapseWs true rest else ' ' :: collapseWs true rest
    else c :: collapseWs false rest

/-- `_norm_ws(s)`: `re.sub(r"\s+", " ", s.strip())`. -/
def normWs (cs : List Char) : List Char :=
  collapseWs false (pyStrip cs)

/-- Split a character list on a separator character (`re.split` with a
single-character pattern / `str.split(sep)`). -/
def splitSep (sep : Char) : List Char → List (List Char)
  | [] => [[]]
  | c :: rest =>
    let r := splitSep sep rest
    if c = sep then [] :: r
    else
      match r with
      | s :: ss => (c :: s) :: ss
      | [] => [[c]]

/-- `" | ".join`-style intercalation, structurally recursive. -/
def interStr (sep : String) : List String → String
  | [] => ""
  | [x] => x
  | x :: y :: rest => x ++ sep ++ interStr sep (y :: rest)

/-- Match a literal character sequence (case-sensitive), returning the rest. -/
def chopLit : List Char → List Char → Option (List Char)
  | [], cs => some cs
  | _ :: _, [] => none
  | p :: ps, c :: cs => if c = p then chopLit ps cs else none

/-- Match a literal character sequence case-insensitively (ASCII folding),
returning the rest.  The literal is given in lower case. -/
def chopLitCI : List Char → List Char → Option (List Char)
  | [], cs => some cs
  | _ :: _, [] => none
  | p :: ps, c :: cs => if c.toLower = p then chopLitCI ps cs else none

/-- Lexicographic code-point order on character lists (Python `<` on str). -/
def lexLeB : List Char → List Char → Bool
  | [], _ => true
  | _ :: _, [] => false
  | a :: as_, b :: bs => if a < b then true else if a = b then lexLeB as_ bs else false

/-- Python string `<=` (code-point lexicographic). -/
def strLeB (a b : String) : Bool := lexLeB a.data b.data

/-- Insert into a sorted list (ascending `strLeB`). -/
def insSorted (x : String) : List String → List String
  | [] => [x]
  | y :: ys => if strLeB x y then x :: y :: ys else y :: insSorted x ys

/-- Insertion sort by Python string order. -/
def insSort : List String → List String
  | [] => []
  | x :: xs => insSorted x (insSort xs)

/-- Remove adjacent duplicates (the list is sorted first, so this removes
all duplicates). -/
def dedupAdj : List String → List String
  | [] => []
  | [x] => [x]
  | x :: y :: rest => if x = y then dedupAdj (y :: rest) else x :: dedupAdj (y :: rest)

/-- Python `sorted(set(l))` for strings: distinct values in ascending
code-point order. -/
def sortedDedup (l : List String) : List String :=
  dedupAdj (insSort l)

/-- String `startsWith`, via `List.isPrefixOf` (kept kernel-reducible). -/
def strLeads (p s : String) : Bool :=
  p.data.isPrefixOf s.data

/-!
### Token regexes (`RE_INDEX`, `RE_SOURCETYPE`, `RE_EARLIEST`, `RE_LATEST`)

Shape `\bKEYWORD\s*=\s*(CLASS+)` (for sourcetype with an optional quote on
either side of the capture).  `bnd` records whether the previous character
was absent or a non-word character, which is exactly the `\b` condition in
front of a word character.
-/

/-- Length of the optional quote consumed by `\"?` (only for the quoted
sourcetype pattern). -/
def quoteSkip (quoted : Bool) (r : List Char) : Nat :=
  if quoted then (match r with | '"' :: _ => 1 | _ => 0) else 0

/-- Greedy one-or-more class capture (`CLASS+`): the non-empty
`takeWhile`. -/
def capCls (cls : Char → Bool) (r : List Char) : Option (List Char) :=
  if (r.takeWhile cls).isEmpty then none else some (r.takeWhile cls)

/-- Attempt the token pattern at the head of `cs`; on success return the
capture and the total matched length. -/
def tokenTry (kw : List Char) (cls : Char → Bool) (quoted : Bool)
    (bnd : Bool) (cs : List Char) : Option (List Char × Nat) :=
  if bnd then
    match chopLit kw cs with
    | none => none
    | some r1 =>
      let w1 := (r1.takeWhile isPySpace).length
      match r1.drop w1 with
      | '=' :: r3 =>
        let w2 := (r3.takeWhile isPySpace).length
        let r4 := r3.drop w2
        let q1 := quoteSkip quoted r4
        let r5 := r4.drop q1
        match capCls cls r5 with
        | none => none
        | some cap =>
          some (cap, kw.length + w1 + 1 + w2 + q1 + cap.length +
            quoteSkip quoted (r5.drop cap.length))
      | _ => none
  else none

/-- Word-boundary state at the position after consuming the first `k`
characters of `cs` (given the state `bnd` at `cs` itself). -/
def bndAfter (bnd : Bool) (cs : List Char) (k : Nat) : Bool :=
  match (cs.take k).getLast? with
  | some d => !(isWordChar d)
  | none => bnd

/-- `re.finditer` scan of the token pattern: leftmost matches, the scan
resuming at each match end (non-overlapping).  `fuel` bounds the recursion
and is always at least the remaining length. -/
def tokenFindAux (kw : List Char) (cls : Char → Bool) (quoted : Bool) :
    Nat → Bool → List Char → List (List Char)
  | 0, _, _ => []
  | _ + 1, _, [] => []
  | fuel + 1, bnd, c :: rest =>
    match tokenTry kw cls quoted bnd (c :: rest) with
    | some (cap, n) =>
      cap :: tokenFindAux kw cls quoted fuel (bndAfter bnd (c :: rest) (n.max 1))
        ((c :: rest).drop (n.max 1))
    | none => tokenFindAux kw cls quoted fuel (!(isWordChar c)) rest

/-- `re.findall` for the token pattern. -/
def tokenFindall (kw : List Char) (cls : Char → Bool) (quoted : Bool)
    (cs : List Char) : List (List Char) :=
  tokenFindAux kw cls quoted cs.length true cs

/-- `re.search` for the token pattern: capture of the leftmost match. -/
def tokenSearchAux (kw : List Char) (cls : Char → Bool) (quoted : Bool) :
    Bool → List Char → Option (List Char)
  | _, [] => none
  | bnd, c :: rest =>
    match tokenTry kw cls quoted bnd (c :: rest) with
    | some (cap, _) => some cap
    | none => tokenSearchAux kw cls quoted (!(isWordChar c)) rest

/-- `re.search` entry point for the token pattern. -/
def tokenSearch (kw : List Char) (cls : Char → Bool) (quoted : Bool)
    (cs : List Char) : Option (List Char) :=
  tokenSearchAux kw cls quoted true cs

/-!
### Command regexes (`RE_SEARCH_TERM` … `RE_REX`, `RE_TRANSACTION`)

Shape `\|\s*KEYWORD\s+(.+?)(?=\|\s*\w+|$)` — case-insensitive, with
`re.S` (dot matches newline) on some of them — or, for `transaction`,
`\|\s*transaction\s+([^|]+)`.
-/

/-- Capture behavior of a command pattern: the lazy `(.+?)` bounded by the
lookahead `(?=\|\s*\w+|$)` (with or without `re.S`), or the greedy
`([^|]+)` of `RE_TRANSACTION`. -/
inductive CapKind where
  | lazyLA : Bool → CapKind
  | nonPipe : CapKind

/-- First branch of the lookahead: `\|\s*\w+` matches at this suffix. -/
def laPipeWord : List Char → Bool
  | '|' :: r =>
    match r.dropWhile isPySpace with
    | d :: _ => isWordChar d
    | [] => false
  | _ => false

/-- The lookahead `(?=\|\s*\w+|$)` holds at this suffix (`$` without
`re.M` matches at the end of the text or just before a final newline). -/
def laOk (cs : List Char) : Bool :=
  laPipeWord cs || cs.isEmpty || cs = ['\n']

/-- Lazy `(.+?)` bounded by the lookahead: the shortest non-empty capture
after which the lookahead holds; without `re.S` the dot cannot cross a
newline. -/
def lazyCapLA (dotAll : Bool) : List Char → Option (List Char)
  | [] => none
  | c :: rest =>
    if !dotAll && c = '\n' then none
    else if laOk rest then some [c]
    else
      match lazyCapLA dotAll rest with
      | some t => some (c :: t)
      | none => none

/-- Run the capture of a command pattern at a suffix. -/
def capAttempt : CapKind → List Char → Option (List Char)
  | .lazyLA d, cs => lazyCapLA d cs
  | .nonPipe, cs => capCls (fun c => c ≠ '|') cs

/-- Backtracking over the greedy `\s+` after the keyword: `cs` is the
suffix right after the keyword, the `Nat` argument is the whitespace-run
length still to try (largest first, as Python does).  On success returns
the capture and the count of characters consumed from `cs`. -/
def tryWs (kind : CapKind) (cs : List Char) : Nat → Option (List Char × Nat)
  | 0 => none
  | q + 1 =>
    match capAttempt kind (cs.drop (q + 1)) with
    | some cap => some (cap, q + 1 + cap.length)
    | none => tryWs kind cs q

/-- Attempt a command pattern at the head of `cs` (which must start with
`|`); on success return the capture and total matched length. -/
def cmdTry (kw : List Char) (kind : CapKind) (cs : List Char) :
    Option (List Char × Nat) :=
  match cs with
  | '|' :: r1 =>
    let w1 := (r1.takeWhile isPySpace).length
    match chopLitCI kw (r1.drop w1) with
    | none => none
    | some r2 =>
      match tryWs kind r2 (r2.takeWhile isPySpace).length with
      | some (cap, used) => some (cap, 1 + w1 + kw.length + used)
      | none => none
  | _ => none

/-- `re.finditer` scan for a command pattern. -/
def cmdFindAux (kw : List Char) (kind : CapKind) :
    Nat → List Char → List (List Char)
  | 0, _ => []
  | _ + 1, [] => []
  | fuel + 1, c :: rest =>
    match cmdTry kw kind (c :: rest) with
    | some (cap, n) => cap :: cmdFindAux kw kind fuel ((c :: rest).drop (n.max 1))
    | none => cmdFindAux kw kind fuel rest

/-- `re.findall` for a command pattern. -/
def cmdFindall (kw : List Char) (kind : CapKind) (cs : List Char) :
    List (List Char) :=
  cmdFindAux kw kind cs.length cs

/-!
### The join regex `RE_JOIN = \|\s*join\s+(.+?)\[(.+?)\]` (`re.I | re.S`)

Both captures are lazy: the first ends at the first `[` from which a
second non-empty capture closed by a `]` can be completed, and the second
ends at the first `]` after at least one character.
-/

/-- Lazy second capture: the shortest non-empty prefix followed by `]`. -/
def g2Cap : List Char → Option (List Char)
  | [] => none
  | [_] => none
  | c :: d :: rest =>
    if d = ']' then some [c]
    else
      match g2Cap (d :: rest) with
      | some t => some (c :: t)
      | none => none

/-- Lazy first capture of `RE_JOIN`: grow until a `[` follows from which
`(.+?)\]` succeeds. -/
def joinCap : List Char → Option (List Char × List Char)
  | [] => none
  | c :: rest =>
    match rest with
    | '[' :: r2 =>
      match g2Cap r2 with
      | some g2 => some ([c], g2)
      | none =>
        match joinCap rest with
        | some (g1, g2) => some (c :: g1, g2)
        | none => none
    | _ =>
      match joinCap rest with
      | some (g1, g2) => some (c :: g1, g2)
      | none => none

/-- Backtracking over `\s+` for the join pattern. -/
def tryWsJoin (cs : List Char) : Nat → Option ((List Char × List Char) × Nat)
  | 0 => none
  | q + 1 =>
    match joinCap (cs.drop (q + 1)) with
    | some (g1, g2) => some ((g1, g2), q + 1 + g1.length + 1 + g2.length + 1)
    | none => tryWsJoin cs q

/-- Attempt `RE_JOIN` at the head of `cs`. -/
def joinTry (cs : List Char) : Option ((List Char × List Char) × Nat) :=
  match cs with
  | '|' :: r1 =>
    let w1 := (r1.takeWhile isPySpace).length
    match chopLitCI ("join").data (r1.drop w1) with
    | none => none
    | some r2 =>
      match tryWsJoin r2 (r2.takeWhile isPySpace).length with
      | some (gg, used) => some (gg, 1 + w1 + 4 + used)
      | none => none
  | _ => none

/-- `re.finditer` scan for `RE_JOIN`. -/
def joinFindAux : Nat → List Char → List (List Char × List Char)
  | 0, _ => []
  | _ + 1, [] => []
  | fuel + 1, c :: rest =>
    match joinTry (c :: rest) with
    | some (gg, n) => gg :: joinFindAux fuel ((c :: rest).drop (n.max 1))
    | none => joinFindAux fuel rest

/-- `re.findall` for `RE_JOIN`. -/
def joinFindall (cs : List Char) : List (List Char × List Char) :=
  joinFindAux cs.length cs

/-!
### Plain-text pattern helpers (intent rules, tuning, validation)
-/

/-- Search: does `p` hold at some suffix of `cs` (including the empty
suffix)?  Models `re.search` of a pattern with a decidable
match-at-position test. -/
def scanAnyB (p : List Char → Bool) : List Char → Bool
  | [] => p []
  | c :: rest => p (c :: rest) || scanAnyB p rest

/-- Case-insensitive substring test (Python `re.search` of a fixed literal
with `re.I`, or `lit in s.lower()`); the literal is in lower case. -/
def containsCI (lit : List Char) (cs : List Char) : Bool :=
  scanAnyB (fun t => (chopLitCI lit t).isSome) cs

/-- Suffix following the earliest case-insensitive occurrence of `lit`. -/
def afterCI (lit : List Char) : List Char → Option (List Char)
  | [] => none
  | c :: rest =>
    match chopLitCI lit (c :: rest) with
    | some r => some r
    | none => afterCI lit rest

/-- Intent rule 1 at a position: `event_id\s*=\s*4688.*powershell`
(`re.I | re.S`). -/
def intent1At (cs : List Char) : Bool :=
  match chopLitCI ("event_id").data cs with
  | none => false
  | some r1 =>
    match (r1.dropWhile isPySpace) with
    | '=' :: r2 =>
      match chopLit ("4688").data (r2.dropWhile isPySpace) with
      | some r3 => containsCI ("powershell").data r3
      | none => false
    | _ => false

/-- Intent rule 2: `transaction.+4625.+4624.+4688` (`re.I | re.S`); each
`.+` forces a gap of at least one character, hence the `tail`. -/
def intent2 (cs : List Char) : Bool :=
  match afterCI ("transaction").data cs with
  | none => false
  | some r1 =>
    match afterCI ("4625").data r1.tail with
    | none => false
    | some r2 =>
      match afterCI ("4624").data r2.tail with
      | none => false
      | some r3 => (afterCI ("4688").data r3.tail).isSome

/-- Intent rule 3: `sqli|information_schema|OR 1=1|sqlmap` (`re.I`). -/
def intent3 (cs : List Char) : Bool :=
  containsCI ("sqli").data cs || containsCI ("information_schema").data cs ||
    containsCI ("or 1=1").data cs || containsCI ("sqlmap").data cs

/-- Intent rule 4: `7z\.exe|invoke-webrequest|exfil|net_dst` (`re.I`). -/
def intent4 (cs : List Char) : Bool :=
  containsCI ("7z.exe").data cs || containsCI ("invoke-webrequest").data cs ||
    containsCI ("exfil").data cs || containsCI ("net_dst").data cs

/-- `infer_intent`: first matching rule wins, default label otherwise. -/
def infer_intent (spl : String) : String :=
  if scanAnyB intent1At spl.data then "PowerShell 실행 탐지"
  else if intent2 spl.data then "로그인 실패→성공 후 프로세스 실행 연쇄"
  else if intent3 spl.data then "SQLi/인증우회 시도 탐지"
  else if intent4 spl.data then "압축 및 외부 전송 행위 탐지"
  else "일반 로그 필터/집계 쿼리"

/-- Rest of the tuning regex after its `[^|]*` gap:
`maxspan\s*=\s*([\w:]+)` (`re.I`). -/
def maxspanRest (cs : List Char) : Option (List Char) :=
  match chopLitCI ("maxspan").data cs with
  | none => none
  | some r1 =>
    match (r1.dropWhile isPySpace) with
    | '=' :: r2 => capCls isSpanVal (r2.dropWhile isPySpace)
    | _ => none

/-- Greedy `[^|]*` between `transaction` and `maxspan`: the longest
non-pipe gap is tried first, so the rightmost workable `maxspan` in the
gap wins (Python backtracking). -/
def maxspanIn : List Char → Option (List Char)
  | [] => none
  | c :: rest =>
    if c = '|' then none
    else
      match maxspanIn rest with
      | some v => some v
      | none => maxspanRest (c :: rest)

/-- Attempt `transaction[^|]*maxspan\s*=\s*([\w:]+)` at a position. -/
def maxspanAt (cs : List Char) : Option (List Char) :=
  match chopLitCI ("transaction").data cs with
  | none => none
  | some r => maxspanIn r

/-- `re.search` of the tuning regex over the whole raw query. -/
def maxspanSearch : List Char → Option (List Char)
  | [] => none
  | c :: rest =>
    match maxspanAt (c :: rest) with
    | some v => some v
    | none => maxspanSearch rest

/-- Match of `(>=|<=|>\s*\d|<\s*\d|=\s*\d)` at a position
(`validate_spl` numeric-threshold check). -/
def numThreshAt : List Char → Bool
  | '>' :: '=' :: _ => true
  | '<' :: '=' :: _ => true
  | c :: rest =>
    (c = '>' || c = '<' || c = '=') &&
      (match (rest.dropWhile isPySpace) with
       | d :: _ => d.isDigit
       | [] => false)
  | [] => false

/-- `re.search(r"(>=|<=|>\s*\d|<\s*\d|=\s*\d)", w)` as a Boolean. -/
def numThresh (cs : List Char) : Bool := scanAnyB numThreshAt cs

/-- Match of `>=|<=|>\s|<\s|=\s*\d` at a position (`_mk_md_base` tuning
check on `where` entries; note `>\s` needs a whitespace, not a digit). -/
def tuneWhereAt : List Char → Bool
  | '>' :: '=' :: _ => true
  | '<' :: '=' :: _ => true
  | '>' :: d :: _ => isPySpace d
  | '<' :: d :: _ => isPySpace d
  | '=' :: rest =>
    (match (rest.dropWhile isPySpace) with
     | d :: _ => d.isDigit
     | [] => false)
  | _ => false

/-- Boolean search of the tuning `where` pattern. -/
def tuneWhere (cs : List Char) : Bool := scanAnyB tuneWhereAt cs

/-- Match of `count\s+as\s+\w+` (`re.I`) at a position. -/
def countAsAt (cs : List Char) : Bool :=
  match chopLitCI ("count").data cs with
  | none => false
  | some r1 =>
    let w1 := (r1.takeWhile isPySpace).length
    if w1 = 0 then false
    else
      match chopLitCI ("as").data (r1.drop w1) with
      | none => false
      | some r2 =>
        let w2 := (r2.takeWhile isPySpace).length
        if w2 = 0 then false
        else
          match r2.drop w2 with
          | d :: _ => isWordChar d
          | [] => false

/-- Boolean search of the `count as` pattern. -/
def countAs (cs : List Char) : Bool := scanAnyB countAsAt cs

/-!
### Data model (`SplOverview`, `SplOps`) and the parser `parse_spl`
-/

/-- `SplOverview`: index/sourcetype value lists and the time window
(`earliest`/`latest`, each from the first textual occurrence only). -/
structure SplOverview where
  index : List String
  sourcetype : List String
  earliest : Option String
  latest : Option String
deriving DecidableEq, Repr

/-- `SplOps`: one ordered bucket per recognized category; joins are
(field-list, subsearch-body) pairs; `others` holds unclassified segments
verbatim. -/
structure SplOps where
  search_terms : List String
  evals : List String
  transactions : List String
  stats : List String
  timecharts : List String
  wheres : List String
  joins : List (String × String)
  lookups : List String
  rexes : List String
  sorts : List String
  dedups : List String
  tables : List String
  fields_cmds : List String
  others : List String
deriving DecidableEq, Repr

/-- Result of `parse_spl`. -/
structure Parsed where
  overview : SplOverview
  ops : SplOps
deriving DecidableEq, Repr

/-- The recognized command keywords (`essential_cmds`). -/
def essential_cmds : List String :=
  ["search", "eval", "transaction", "stats", "timechart", "where",
   "lookup", "rex", "join", "sort", "dedup", "table", "fields"]

/-- Lower-cased first whitespace-delimited token of a segment
(`seg.split()[0].lower()`, empty string when there is none). -/
def firstTokenLower (seg : List Char) : String :=
  strOf (((seg.dropWhile isPySpace).takeWhile (fun c => !isPySpace c)).map Char.toLower)

/-- The `others` loop of `parse_spl`: trailing pipe segments whose leading
keyword is not recognized are kept verbatim (stripped). -/
def collectOthers : List (List Char) → List String
  | [] => []
  | seg :: rest =>
    let t := pyStrip seg
    if t.isEmpty then collectOthers rest
    else if firstTokenLower t ∈ essential_cmds then collectOthers rest
    else strOf t :: collectOthers rest

/-- `parse_spl` on the stripped text (the Python body after
`text = spl.strip()`). -/
def parseText (text : List Char) : Parsed :=
  { overview :=
    { index := (tokenFindall ("index").data isIndexVal false text).map strOf
      sourcetype := (tokenFindall ("sourcetype").data isStypeVal true text).map strOf
      earliest := (tokenSearch ("earliest").data isTimeVal false text).map strOf
      latest := (tokenSearch ("latest").data isTimeVal false text).map strOf }
    ops :=
    { search_terms := (cmdFindall ("search").data (.lazyLA true) text).map (fun c => strOf (normWs c))
      evals := (cmdFindall ("eval").data (.lazyLA true) text).map (fun c => strOf (normWs c))
      transactions := (cmdFindall ("transaction").data .nonPipe text).map (fun c => strOf (normWs c))
      stats := (cmdFindall ("stats").data (.lazyLA true) text).map (fun c => strOf (normWs c))
      timecharts := (cmdFindall ("timechart").data (.lazyLA true) text).map (fun c => strOf (normWs c))
      wheres := (cmdFindall ("where").data (.lazyLA true) text).map (fun c => strOf (normWs c))
      joins := (joinFindall text).map (fun g => (strOf (normWs g.1), strOf (normWs g.2)))
      lookups := (cmdFindall ("lookup").data (.lazyLA false) text).map (fun c => strOf (normWs c))
      rexes := (cmdFindall ("rex").data (.lazyLA false) text).map (fun c => strOf (normWs c))
      sorts := (cmdFindall ("sort").data (.lazyLA false) text).map (fun c => strOf (normWs c))
      dedups := (cmdFindall ("dedup").data (.lazyLA false) text).map (fun c => strOf (normWs c))
      tables := (cmdFindall ("table").data (.lazyLA false) text).map (fun c => strOf (normWs c))
      fields_cmds := (cmdFindall ("fields").data (.lazyLA false) text).map (fun c => strOf (normWs c))
      others := collectOthers ((splitSep '|' text).drop 1) } }

/-- `parse_spl(spl)`. -/
def parse_spl (spl : String) : Parsed :=
  parseText (pyStrip spl.data)

/-!
### Summarizer, validator and the fixed-template renderer
-/

/-- `summarize_spl(parsed, spl)`. -/
def summarize_spl (p : Parsed) (spl : String) : String :=
  let ov := p.overview
  let ops := p.ops
  let intent := infer_intent spl
  let srcs :=
    (if ov.index.isEmpty then [] else ["index=" ++ interStr "," (sortedDedup ov.index)]) ++
    (if ov.sourcetype.isEmpty then [] else ["sourcetype=" ++ interStr "," (sortedDedup ov.sourcetype)])
  let src_txt := if srcs.isEmpty then "데이터 소스 미지정" else interStr " / " srcs
  let steps :=
    (if ops.search_terms.isEmpty then [] else ["기본 검색어 적용"]) ++
    (if ops.evals.isEmpty then [] else ["eval 계산"]) ++
    (if ops.transactions.isEmpty then [] else ["transaction으로 이벤트 연계"]) ++
    (if ops.stats.isEmpty then [] else ["stats 집계"]) ++
    (if ops.timecharts.isEmpty then [] else ["timechart 시계열 집계"]) ++
    (if ops.joins.isEmpty then [] else ["join + subsearch 결합"]) ++
    (if ops.rexes.isEmpty then [] else ["rex 정규식 추출"]) ++
    (if ops.lookups.isEmpty then [] else ["lookup 참조"]) ++
    (if ops.sorts.isEmpty then [] else ["sort 정렬"]) ++
    (if ops.dedups.isEmpty then [] else ["dedup 중복 제거"]) ++
    (if ops.tables.isEmpty && ops.fields_cmds.isEmpty then [] else ["table/fields로 출력 필드 지정"])
  let steps := if steps.isEmpty then ["단순 필터/기본 검색"] else steps
  "이 쿼리는 " ++ src_txt ++ " 에서 데이터를 조회하며, " ++ interStr " → " steps ++
    " 을(를) 수행합니다. 의도: " ++ intent

/-- Warning text of the unbounded-time-range check. -/
def timeWarn : String := "시간 범위(earliest/latest) 미지정 → 대용량 검색 위험"

/-- `validate_spl(parsed)`: independent checks, in declaration order. -/
def validate_spl (p : Parsed) : List String :=
  let ov := p.overview
  let ops := p.ops
  (if ov.index.isEmpty && ov.sourcetype.isEmpty then
     ["데이터 소스(index/sourcetype) 미지정"] else []) ++
  (if ov.earliest = none && ov.latest = none then [timeWarn] else []) ++
  (if ops.joins.isEmpty then [] else
     ["join 사용 → 대규모 데이터에서 성능 저하 가능. 키 정합성과 선필터 권장"]) ++
  (if ops.transactions.isEmpty then [] else
     ["transaction 사용 → 리소스 소모 큼. 대안(stats/correlation) 검토"]) ++
  (if ops.tables.isEmpty && ops.fields_cmds.isEmpty then
     ["출력 필드(table/fields) 미지정 → 결과 해석 어려움"] else []) ++
  (if !ops.wheres.isEmpty && !ops.wheres.any (fun w => numThresh w.data) then
     ["where에 수치 임계 조건 부재 → 탐지 기준 불명확 가능"] else [])

/-- A Markdown section: heading line plus body. -/
def mdSec (h b : String) : String := h ++ "\n" ++ b

/-- The labeled category blocks of the Operation Steps section, in the
source order of `_mk_md_base` (`eval`, `transaction`, `stats`,
`timechart`, `join`, `lookup`, `rex`, `sort`, `dedup`, `table`, `other`). -/
def stepBlocks (ops : SplOps) : List (String × List String) :=
  [("eval", ops.evals), ("transaction", ops.transactions), ("stats", ops.stats),
   ("timechart", ops.timecharts),
   ("join", ops.joins.map (fun j => "on " ++ j.1 ++ " | subsearch: " ++ j.2)),
   ("lookup", ops.lookups), ("rex", ops.rexes), ("sort", ops.sorts),
   ("dedup", ops.dedups),
   ("table", if ops.tables.isEmpty then ops.fields_cmds else ops.tables),
   ("other", ops.others)]

/-- The rendered step lines of the Operation Steps section. -/
def stepsOf (p : Parsed) : List String :=
  ((stepBlocks p.ops).map (fun nb => nb.2.map (fun it => "- **" ++ nb.1 ++ "**: " ++ it))).flatten

/-- Intent section body of `_mk_md_base`. -/
def secIntentBody (spl : String) : String :=
  "- " ++ infer_intent spl

/-- Data-source section body of `_mk_md_base`. -/
def secSourceBody (p : Parsed) : String :=
  let ov := p.overview
  let idx :=
    let j := interStr ", " (sortedDedup ov.index)
    if j = "" then "(명시 없음)" else j
  let stype :=
    let j := interStr ", " (sortedDedup ov.sourcetype)
    if j = "" then "(명시 없음)" else j
  let twin :=
    (match ov.earliest with | some e => ["earliest=" ++ e] | none => []) ++
    (match ov.latest with | some l => ["latest=" ++ l] | none => [])
  let twin_str := if twin.isEmpty then "(명시 없음)" else interStr ", " twin
  "- index: " ++ idx ++ "\n- sourcetype: " ++ stype ++ "\n- 시간범위: " ++ twin_str

/-- Base-filter section body of `_mk_md_base`. -/
def secFilterBody (p : Parsed) : String :=
  let base_filters :=
    (match p.ops.search_terms with | t :: _ => [t] | [] => []) ++ p.ops.wheres
  "- " ++ (if base_filters.isEmpty then "(검색어/where 미지정)" else interStr "\n- " base_filters)

/-- Operation-steps section body of `_mk_md_base`. -/
def secStepsBody (p : Parsed) : String :=
  if (stepsOf p).isEmpty then "- (연산 미검출)" else interStr "\n" (stepsOf p)

/-- Tuning section body of `_mk_md_base`. -/
def secTuningBody (p : Parsed) (spl : String) : String :=
  let tuning :=
    (match maxspanSearch spl.data with
     | some v => ["transaction maxspan=" ++ strOf v ++ " (환경에 맞게 조정)"]
     | none => []) ++
    (p.ops.wheres.filter (fun w => tuneWhere w.data)).map (fun w => "where 임계 확인: " ++ w) ++
    (p.ops.stats.filter (fun s => countAs s.data)).map (fun _ => "stats 기반 임계(건수) 검토")
  "- " ++ (if tuning.isEmpty then "(특이 임계 없음)" else interStr "\n- " tuning)

/-- False-positive section body of `_mk_md_base`. -/
def secFpBody (spl : String) : String :=
  let fp :=
    (if containsCI ("powershell").data spl.data then ["관리 스크립트에 의한 PowerShell 실행"] else []) ++
    (if containsCI ("sqlmap").data spl.data || containsCI ("or 1=1").data spl.data ||
        containsCI ("union").data spl.data then ["모의 스캔/QA 테스트 트래픽"] else []) ++
    (if containsCI ("7z").data spl.data || containsCI ("invoke-webrequest").data spl.data ||
        containsCI ("wget").data spl.data || containsCI ("curl").data spl.data then
       ["백업/로그 수집과 혼동"] else [])
  let fp := if fp.isEmpty then ["운영 자동화/배치 작업과의 혼동 가능"] else fp
  "- " ++ interStr "\n- " fp

/-- Output-fields section body of `_mk_md_base`. -/
def secOutBody (p : Parsed) : String :=
  "- " ++
    (if p.ops.tables.isEmpty && p.ops.fields_cmds.isEmpty then "(table/fields 미지정)"
     else interStr ", "
       (if p.ops.tables.isEmpty then p.ops.fields_cmds.take 1 else p.ops.tables.take 1))

/-- `_mk_md_base(parsed, spl)`: the fixed-template rule-based document
body (seven sections, joined with blank lines). -/
def mkMdBase (p : Parsed) (spl : String) : String :=
  interStr "\n\n"
    [mdSec "### 요약 Intent" (secIntentBody spl),
     mdSec "### 데이터 소스" (secSourceBody p),
     mdSec "### 기본 필터" (secFilterBody p),
     mdSec "### 연산 단계" (secStepsBody p),
     mdSec "### 임계/튜닝 포인트" (secTuningBody p spl),
     mdSec "### 오탐 가능성" (secFpBody spl),
     mdSec "### 출력/결과 필드" (secOutBody p)]

/-- `explain_spl_to_markdown(spl)`. -/
def explain_spl_to_markdown (spl : String) : String :=
  mkMdBase (parse_spl spl) spl

/-- Overall-description section body of the full document. -/
def secSummaryBody (p : Parsed) (spl : String) : String :=
  "- " ++ summarize_spl p spl

/-- Validation-result section body of the full document. -/
def secValidBody (p : Parsed) : String :=
  "- " ++ (if (validate_spl p).isEmpty then "특별한 경고 없음"
           else interStr "\n- " (validate_spl p))

/-- `explain_spl_to_markdown_full(spl)`: overall-description section, the
seven-section base document, and the validation-result section. -/
def explain_spl_to_markdown_full (spl : String) : String :=
  interStr "\n\n"
    [mdSec "### 쿼리 전체 설명" (secSummaryBody (parse_spl spl) spl),
     mkMdBase (parse_spl spl) spl,
     mdSec "### 검증 결과" (secValidBody (parse_spl spl))]

/-!
### Orchestration facades

The external LLM call is a synchronous network request; its outcome is
modeled as the pair `(output?, error?)` that `llm_explain_and_validate`
returns (in `query_test.py` that function catches every exception and
returns an error message instead, so the pair is a faithful abstraction of
its behavior).  A Python exception escaping a facade is modeled as
`Except.error`.
-/

/-- Result record of `explain_spl_markdown_backend_with_meta`. -/
structure ExplainMeta where
  engine : String
  model : String
  llm_ready : Bool
  llm_error : Option String
  markdown : String
deriving DecidableEq, Repr

/-- `_prepend_raw_query` of `query_test.py`. -/
def prependRawQuery (spl body engine model : String) (llm_error : Option String) : String :=
  "<!-- engine=" ++ engine ++ "; model=" ++ model ++
    (match llm_error with
     | some e => if e = "" then "" else "; error=" ++ e
     | none => "") ++
    " -->\n" ++ "### 입력된 쿼리\n```spl\n" ++ spl ++ "\n```\n\n" ++ body

/-- `explain_spl_markdown_backend_with_meta` of `query_test.py`: tries the
external engine when preferred and available, falls back to the rule-based
document otherwise, and never lets a failure escape (total function). -/
def queryTestFacadeMeta (spl : String) (prefer_gpt include_raw openaiAvailable : Bool)
    (ext : Option String × Option String) (model : String) : ExplainMeta :=
  let attempted := prefer_gpt && openaiAvailable
  let llmOut := if attempted then ext.1 else none
  let llmErr := if attempted then ext.2 else none
  let truthy := match llmOut with | some s => s != "" | none => false
  let engine := if truthy then "LLM" else "RULE"
  let body :=
    match llmOut with
    | some s => if s = "" then explain_spl_to_markdown_full spl else s
    | none => explain_spl_to_markdown_full spl
  let out := if include_raw then prependRawQuery spl body engine model llmErr else body
  { engine := engine, model := model, llm_ready := openaiAvailable,
    llm_error := llmErr, markdown := out }

/-- Display of an optional string in a Python f-string (`None` prints as
`"None"`). -/
def pyOptShow : Option String → String
  | some e => e
  | none => "None"

/-- `_prepend_raw_query` of `back/explain.py` (engine is fixed to LLM). -/
def backPrependRawQuery (spl body model : String) (err : Option String) : String :=
  "<!-- engine=LLM; model=" ++ model ++
    (match err with
     | some e => if e = "" then "" else "; error=" ++ e
     | none => "") ++
    " -->\n" ++ "### 입력된 쿼리\n```spl\n" ++ spl ++ "\n```\n\n" ++ body

/-- `explain_spl_markdown_backend_with_meta` of `back/explain.py`: the
rule-based fallback was removed, and an empty/failed external result makes
the facade raise `RuntimeError("LLM failed: ...")`. -/
def backFacadeMeta (spl : String) (include_raw : Bool) (openaiAvailable : Bool)
    (ext : Option String × Option String) (model : String) : Except String ExplainMeta :=
  let failMsg := "LLM failed: " ++ pyOptShow ext.2
  match ext.1 with
  | none => Except.error failMsg
  | some s =>
    if s = "" then Except.error failMsg
    else
      let out := if include_raw then backPrependRawQuery spl s model ext.2 else s
      Except.ok
        { engine := "LLM", model := model, llm_ready := openaiAvailable,
          llm_error := ext.2, markdown := out }

/-!
### Derived notions used to state the claims
-/

/-- Lines of a document (`str.split("\n")`). -/
def linesOf (s : String) : List String :=
  (splitSep '\n' s.data).map strOf

/-- A line that renders as a section heading. -/
def isHeadingLine (l : String) : Bool :=
  strLeads ("###") l

/-- The heading lines of a document, in order. -/
def headingLines (s : String) : List String :=
  (linesOf s).filter isHeadingLine

/-- The nine fixed section headings of the full rule-based document, in
their fixed order. -/
def nineHeadings : List String :=
  ["### 쿼리 전체 설명", "### 요약 Intent", "### 데이터 소스", "### 기본 필터",
   "### 연산 단계", "### 임계/튜닝 포인트", "### 오탐 가능성", "### 출력/결과 필드",
   "### 검증 결과"]

/-- Claim C2 as stated: every input's document has exactly the nine fixed
headings, once each, in order. -/
def claimNineHeadings (s : String) : Prop :=
  headingLines (explain_spl_to_markdown_full s) = nineHeadings

/-- Claim C5 as stated: in the Operation Steps lines, every `rex` line
precedes every `lookup` line. -/
def claimRexBeforeLookup (s : String) : Prop :=
  ∀ (i j : Fin (stepsOf (parse_spl s)).length),
    strLeads ("- **rex**: ") ((stepsOf (parse_spl s)).get i) = true →
    strLeads ("- **lookup**: ") ((stepsOf (parse_spl s)).get j) = true →
    (i : Nat) < (j : Nat)

/-- The category bucket belonging to a recognized keyword (for joins, the
field-list components). -/
def bucketOf (kw : String) (p : Parsed) : List String :=
  if kw = "search" then p.ops.search_terms
  else if kw = "eval" then p.ops.evals
  else if kw = "transaction" then p.ops.transactions
  else if kw = "stats" then p.ops.stats
  else if kw = "timechart" then p.ops.timecharts
  else if kw = "where" then p.ops.wheres
  else if kw = "lookup" then p.ops.lookups
  else if kw = "rex" then p.ops.rexes
  else if kw = "join" then p.ops.joins.map Prod.fst
  else if kw = "sort" then p.ops.sorts
  else if kw = "dedup" then p.ops.dedups
  else if kw = "table" then p.ops.tables
  else if kw = "fields" then p.ops.fields_cmds
  else []

/-- Claim C6 as stated: every non-empty trailing pipe segment is recorded
somewhere — in its category's bucket when its leading keyword is
recognized, verbatim in `others` otherwise. -/
def claimSegmentsRecorded (s : String) : Prop :=
  ∀ seg ∈ (splitSep '|' (pyStrip s.data)).drop 1,
    (pyStrip seg).isEmpty = false →
    (if firstTokenLower (pyStrip seg) ∈ essential_cmds
     then (bucketOf (firstTokenLower (pyStrip seg)) (parse_spl s)).isEmpty = false
     else strOf (pyStrip seg) ∈ (parse_spl s).ops.others)

/-- Claim C7's dedup part as stated: the extractor's index/sourcetype
collections are duplicate-free sets. -/
def claimDedupSets (s : String) : Prop :=
  ((parse_spl s).overview.index).Nodup ∧ ((parse_spl s).overview.sourcetype).Nodup

/-- One labeled category block of the Operation Steps section. -/
def blockLines (n : String) (items : List String) : List String :=
  items.map (fun it => "- **" ++ n ++ "**: " ++ it)

/-- The query with `earliest=-24h` added in front of the (stripped) base
segment — the C8 notion of "the same query with `earliest=-24h` added". -/
def addTime (s : String) : String :=
  strOf (("earliest=-24h ").data ++ pyStrip s.data)

/-- Character-level heading lines: the `\n`-separated lines that start
with `###`. -/
def hLinesL (cs : List Char) : List (List Char) :=
  (splitSep '\n' cs).filter (fun l => (("###").data).isPrefixOf l)

instance (s : String) : Decidable (claimNineHeadings s) := by
  unfold claimNineHeadings; infer_instance

instance (s : String) : Decidable (claimRexBeforeLookup s) := by
  unfold claimRexBeforeLookup; infer_instance

instance (s : String) : Decidable (claimSegmentsRecorded s) := by
  unfold claimSegmentsRecorded; infer_instance

instance (s : String) : Decidable (claimDedupSets s) := by
  unfold claimDedupSets; infer_instance

/-!
### C3 — join subsearch capture is bracket-naive, not depth-counting

The specification (§4.1, §9) requires the matching bracket to be found by
depth-counting so nested subsearches are captured whole; `RE_JOIN` stops
at the first `]`.
-/

/-- C3: on a join whose subsearch contains a nested bracket, `parse_spl`
truncates the subsearch at the first closing bracket: the captured body is
`search [a`, not the depth-matched `search [a] b`.  This exhibits the
failing input for the spec's depth-counting requirement. -/
theorem c3_join_truncation :
    (parse_spl ("index=m | join host [search [a] b] | table x")).ops.joins =
      [("host", "search [a")] := by
  decide

/-!
### C4 — join with a pipe inside the subsearch
-/

/-- C4: for the input containing `| join host,user [search foo | stats
count]`, the extracted join entry has field list `host,user` and subsearch
body exactly `search foo | stats count`. -/
theorem c4_join_nested_pipe :
    (parse_spl ("index=main | join host,user [search foo | stats count]")).ops.joins =
      [("host,user", "search foo | stats count")] := by
  decide

/-!
### C7 — all index/sourcetype matches, first earliest/latest only
-/

/-- Scanning for the first token match agrees with the head of the full
non-overlapping scan (`re.search` is the first `re.finditer` element). -/
theorem tokenFindAux_head_eq_search (kw : List Char) (cls : Char → Bool) (quoted : Bool) :
    ∀ (cs : List Char) (fuel : Nat) (bnd : Bool), cs.length ≤ fuel →
      (tokenFindAux kw cls quoted fuel bnd cs).head? = tokenSearchAux kw cls quoted bnd cs := by
  intro cs
  induction cs with
  | nil =>
    intro fuel bnd _
    cases fuel <;> simp [tokenFindAux, tokenSearchAux]
  | cons c rest ih =>
    intro fuel bnd hle
    match fuel, hle with
    | f + 1, hle =>
      simp only [tokenFindAux, tokenSearchAux]
      cases h : tokenTry kw cls quoted bnd (c :: rest) with
      | some capn => rfl
      | none =>
        simp only []
        exact ih f (!(isWordChar c)) (by simpa using Nat.le_of_succ_le_succ hle)

/-- C7 counterexample: the extractor does not deduplicate — a repeated
`index=` value is collected twice. -/
theorem c7_counterexample : ¬ claimDedupSets ("index=a index=a") := by
  decide

/-- C7 amended: the extractor collects every `index=`/`sourcetype=` match
across the whole text, in order and with duplicates retained
(deduplication happens only at render time), while `earliest`/`latest`
keep exactly the first textual occurrence — the head of the full match
list — even when several occur. -/
theorem c7_first_time_bound (s : String) :
    (parse_spl s).overview.earliest =
      ((tokenFindall ("earliest").data isTimeVal false (pyStrip s.data)).head?).map strOf ∧
    (parse_spl s).overview.latest =
      ((tokenFindall ("latest").data isTimeVal false (pyStrip s.data)).head?).map strOf ∧
    (parse_spl s).overview.index =
      (tokenFindall ("index").data isIndexVal false (pyStrip s.data)).map strOf ∧
    (parse_spl s).overview.sourcetype =
      (tokenFindall ("sourcetype").data isStypeVal true (pyStrip s.data)).map strOf := by
  refine ⟨?_, ?_, rfl, rfl⟩ <;>
    simp [parse_spl, parseText, tokenSearch, tokenFindall,
      tokenFindAux_head_eq_search _ _ _ _ _ _ (Nat.le_refl _)]

/-!
### C9 — determinism of the rule-based path
-/

/-- C9: with the external engine unavailable the facade's result is a pure
function of the query: two invocations agree byte-for-byte whatever the
(never consulted) external outcomes are; the document is the rule-based
rendering both times. -/
theorem c9_rule_path_deterministic (spl : String) (prefer_gpt include_raw : Bool)
    (model : String) (ext ext' : Option String × Option String) :
    queryTestFacadeMeta spl prefer_gpt include_raw false ext model =
      queryTestFacadeMeta spl prefer_gpt include_raw false ext' model := by
  simp [queryTestFacadeMeta]

/-!
### C1 — failure absorption at the facade boundary
-/

/-- C1 counterexample: the `back/explain.py` facade (also named
`explain_spl_markdown_backend_with_meta`) removed the rule-based fallback;
on a failed external attempt it raises `RuntimeError` instead of returning
a record with a document. -/
theorem c1_counterexample :
    backFacadeMeta ("index=main | stats count") true true ((none, some ("boom")))
        ("gpt-4o-mini") =
      Except.error ("LLM failed: boom") := rfl

/-- C1 amended: for the rule-capable facade of `query_test.py` — for every
query and every failing external outcome (no output, or empty output), the
facade returns (it cannot raise: it is a total function) a record whose
engine tag is RULE, whose error field carries the external error exactly
when an attempt was made, and whose document is the full rule-based
rendering (with the raw-query block when requested). -/
theorem c1_rule_fallback (spl : String) (prefer_gpt include_raw openaiAvailable : Bool)
    (ext : Option String × Option String) (model : String)
    (hfail : ext.1 = none ∨ ext.1 = some "") :
    (queryTestFacadeMeta spl prefer_gpt include_raw openaiAvailable ext model).engine = "RULE" ∧
    (queryTestFacadeMeta spl prefer_gpt include_raw openaiAvailable ext model).llm_error =
      (if prefer_gpt && openaiAvailable then ext.2 else none) ∧
    (queryTestFacadeMeta spl prefer_gpt include_raw openaiAvailable ext model).markdown =
      (if include_raw then
        prependRawQuery spl (explain_spl_to_markdown_full spl) ("RULE") model
          (if prefer_gpt && openaiAvailable then ext.2 else none)
       else explain_spl_to_markdown_full spl) := by
  obtain ⟨o, e⟩ := ext
  rcases hfail with h | h <;> subst h <;>
    by_cases hat : prefer_gpt && openaiAvailable <;>
      simp [queryTestFacadeMeta, hat]

/-- C1 witness: a concrete failed external attempt, handled by the
rule-based fallback. -/
theorem c1_rule_fallback_witness :
    (queryTestFacadeMeta ("index=m | stats count") true true true ((none, some ("boom")))
        ("gpt-4o-mini")).engine = "RULE" :=
  (c1_rule_fallback ("index=m | stats count") true true true ((none, some ("boom")))
    ("gpt-4o-mini") (Or.inl rfl)).1

/-!
### C2 counterexample — heading injection through a multi-line
unclassified segment
-/

/-- C2 counterexample: an unclassified segment containing a newline and a
heading-shaped line is rendered verbatim into the Operation Steps body, so
the heading `### 요약 Intent` occurs twice and the heading-line list is
not the fixed nine. -/
theorem c2_counterexample :
    ¬ claimNineHeadings ("a | zzz q\n### 요약 Intent") := by
  decide

/-!
### C5 — order of category blocks in the Operation Steps section
-/

/-- The Operation Steps lines are the eleven category blocks in the fixed
source order — with `lookup` before `rex`. -/
theorem stepsOf_eq (p : Parsed) :
    stepsOf p =
      blockLines ("eval") p.ops.evals ++
      blockLines ("transaction") p.ops.transactions ++
      blockLines ("stats") p.ops.stats ++
      blockLines ("timechart") p.ops.timecharts ++
      blockLines ("join") (p.ops.joins.map (fun j => "on " ++ j.1 ++ " | subsearch: " ++ j.2)) ++
      blockLines ("lookup") p.ops.lookups ++
      blockLines ("rex") p.ops.rexes ++
      blockLines ("sort") p.ops.sorts ++
      blockLines ("dedup") p.ops.dedups ++
      blockLines ("table") (if p.ops.tables.isEmpty then p.ops.fields_cmds else p.ops.tables) ++
      blockLines ("other") p.ops.others := by
  simp [stepsOf, stepBlocks, blockLines, List.append_assoc]

/-- If a prefix check already fails inside the first part of an
append, it fails on the whole. -/
theorem isPrefixOf_append_mismatch :
    ∀ (p b e : List Char), (p.take b.length).isPrefixOf b = false →
      p.isPrefixOf (b ++ e) = false := by
  intro p
  induction p with
  | nil => intro b e h; simp [List.isPrefixOf] at h
  | cons x ps ih =>
    intro b e h
    cases b with
    | nil => simp [List.isPrefixOf] at h
    | cons y bs =>
      simp only [List.take, List.isPrefixOf, Bool.and_eq_false_iff] at h
      simp only [List.cons_append, List.isPrefixOf, Bool.and_eq_false_iff]
      rcases h with h | h
      · exact Or.inl h
      · exact Or.inr (ih bs e h)

/-- A label prefix that mismatches a block's label fails on every line of
that block. -/
theorem strLeads_false_on_block (p n : String) (items : List String)
    (hmis : ((p.data).take (("- **" ++ n ++ "**: ").data.length)).isPrefixOf
        (("- **" ++ n ++ "**: ").data) = false) :
    ∀ x ∈ blockLines n items, strLeads p x = false := by
  intro x hx
  simp only [blockLines, List.mem_map] at hx
  obtain ⟨it, _, rfl⟩ := hx
  show (p.data).isPrefixOf ((("- **" ++ n ++ "**: ").data) ++ it.data) = false
  exact isPrefixOf_append_mismatch _ _ _ hmis

/-- Index window of an element satisfying a predicate that is false on the
outer parts of a three-way split. -/
theorem getElem_window {α : Type} (A B C : List α) (P : α → Bool)
    (hA : ∀ x ∈ A, P x = false) (hC : ∀ x ∈ C, P x = false)
    (i : Nat) (hi : i < (A ++ (B ++ C)).length)
    (hP : P ((A ++ (B ++ C))[i]) = true) :
    A.length ≤ i ∧ i < A.length + B.length := by
  have h1 : A.length ≤ i := by
    by_contra h
    push_neg at h
    have he : (A ++ (B ++ C))[i] = A[i] := List.getElem_append_left h
    have hf : P (A[i]) = false := hA _ (A.getElem_mem h)
    rw [he] at hP
    simp [hf] at hP
  refine ⟨h1, ?_⟩
  by_contra h
  push_neg at h
  have hB : B.length ≤ i - A.length := by omega
  have hbc : i - A.length < (B ++ C).length := by
    simp only [List.length_append] at hi ⊢; omega
  have hc : i - A.length - B.length < C.length := by
    simp only [List.length_append] at hi; omega
  have he : (A ++ (B ++ C))[i] = (B ++ C)[i - A.length] :=
    List.getElem_append_right h1
  have he2 : (B ++ C)[i - A.length] = C[i - A.length - B.length] :=
    List.getElem_append_right hB
  rw [he, he2] at hP
  have hf : P (C[i - A.length - B.length]) = false :=
    hC _ (C.getElem_mem hc)
  simp [hf] at hP

/-- C5 counterexample: with a `rex` command before a `lookup` command in
the query, the rendered Operation Steps put the `lookup` line first: the
renderer's order is not the §4.4 precedence order (which has `rex` before
`lookup`). -/
theorem c5_counterexample :
    ¬ claimRexBeforeLookup ("index=m | rex field=a x | lookup t b | table c") := by
  decide

/-- C5 amended: in the rendered Operation Steps of any query, every
`lookup` line precedes every `rex` line (the renderer's fixed block order
is eval, transaction, stats, timechart, join, lookup, rex, sort, dedup,
table, other — `lookup` before `rex`, unlike the §4.4 summary order). -/
theorem c5_lookup_before_rex (s : String)
    (i j : Fin (stepsOf (parse_spl s)).length)
    (hl : strLeads ("- **lookup**: ") ((stepsOf (parse_spl s)).get i) = true)
    (hr : strLeads ("- **rex**: ") ((stepsOf (parse_spl s)).get j) = true) :
    (i : Nat) < (j : Nat) := by
  have hi : (i : Nat) < (stepsOf (parse_spl s)).length := i.isLt
  have hj : (j : Nat) < (stepsOf (parse_spl s)).length := j.isLt
  have hPi : strLeads ("- **lookup**: ") ((stepsOf (parse_spl s))[(i : Nat)]) = true := by
    rw [← List.get_eq_getElem]; exact hl
  have hPj : strLeads ("- **rex**: ") ((stepsOf (parse_spl s))[(j : Nat)]) = true := by
    rw [← List.get_eq_getElem]; exact hr
  have hsplit1 : stepsOf (parse_spl s) =
      (blockLines ("eval") (parse_spl s).ops.evals ++
        (blockLines ("transaction") (parse_spl s).ops.transactions ++
          (blockLines ("stats") (parse_spl s).ops.stats ++
            (blockLines ("timechart") (parse_spl s).ops.timecharts ++
              blockLines ("join") ((parse_spl s).ops.joins.map
                (fun jn => "on " ++ jn.1 ++ " | subsearch: " ++ jn.2)))))) ++
      (blockLines ("lookup") (parse_spl s).ops.lookups ++
        (blockLines ("rex") (parse_spl s).ops.rexes ++
          (blockLines ("sort") (parse_spl s).ops.sorts ++
            (blockLines ("dedup") (parse_spl s).ops.dedups ++
              (blockLines ("table") (if (parse_spl s).ops.tables.isEmpty then
                  (parse_spl s).ops.fields_cmds else (parse_spl s).ops.tables) ++
                blockLines ("other") (parse_spl s).ops.others))))) := by
    rw [stepsOf_eq]; simp only [List.append_assoc]
  have hsplit2 : stepsOf (parse_spl s) =
      (blockLines ("eval") (parse_spl s).ops.evals ++
        (blockLines ("transaction") (parse_spl s).ops.transactions ++
          (blockLines ("stats") (parse_spl s).ops.stats ++
            (blockLines ("timechart") (parse_spl s).ops.timecharts ++
              (blockLines ("join") ((parse_spl s).ops.joins.map
                  (fun jn => "on " ++ jn.1 ++ " | subsearch: " ++ jn.2)) ++
                blockLines ("lookup") (parse_spl s).ops.lookups))))) ++
      (blockLines ("rex") (parse_spl s).ops.rexes ++
        (blockLines ("sort") (parse_spl s).ops.sorts ++
          (blockLines ("dedup") (parse_spl s).ops.dedups ++
            (blockLines ("table") (if (parse_spl s).ops.tables.isEmpty then
                (parse_spl s).ops.fields_cmds else (parse_spl s).ops.tables) ++
              blockLines ("other") (parse_spl s).ops.others)))) := by
    rw [stepsOf_eq]; simp only [List.append_assoc]
  simp only [hsplit1] at hi hPi
  simp only [hsplit2] at hj hPj
  have hAi : ∀ x ∈ (blockLines ("eval") (parse_spl s).ops.evals ++
      (blockLines ("transaction") (parse_spl s).ops.transactions ++
        (blockLines ("stats") (parse_spl s).ops.stats ++
          (blockLines ("timechart") (parse_spl s).ops.timecharts ++
            blockLines ("join") ((parse_spl s).ops.joins.map
              (fun jn => "on " ++ jn.1 ++ " | subsearch: " ++ jn.2)))))),
      strLeads ("- **lookup**: ") x = false := by
    intro x hx
    simp only [List.mem_append] at hx
    rcases hx with hx | hx | hx | hx | hx <;>
      exact strLeads_false_on_block _ _ _ (by decide) x hx
  have hCi : ∀ x ∈ (blockLines ("rex") (parse_spl s).ops.rexes ++
      (blockLines ("sort") (parse_spl s).ops.sorts ++
        (blockLines ("dedup") (parse_spl s).ops.dedups ++
          (blockLines ("table") (if (parse_spl s).ops.tables.isEmpty then
              (parse_spl s).ops.fields_cmds else (parse_spl s).ops.tables) ++
            blockLines ("other") (parse_spl s).ops.others)))),
      strLeads ("- **lookup**: ") x = false := by
    intro x hx
    simp only [List.mem_append] at hx
    rcases hx with hx | hx | hx | hx | hx <;>
      exact strLeads_false_on_block _ _ _ (by decide) x hx
  have hAj : ∀ x ∈ (blockLines ("eval") (parse_spl s).ops.evals ++
      (blockLines ("transaction") (parse_spl s).ops.transactions ++
        (blockLines ("stats") (parse_spl s).ops.stats ++
          (blockLines ("timechart") (parse_spl s).ops.timecharts ++
            (blockLines ("join") ((parse_spl s).ops.joins.map
                (fun jn => "on " ++ jn.1 ++ " | subsearch: " ++ jn.2)) ++
              blockLines ("lookup") (parse_spl s).ops.lookups))))),
      strLeads ("- **rex**: ") x = false := by
    intro x hx
    simp only [List.mem_append] at hx
    rcases hx with hx | hx | hx | hx | hx | hx <;>
      exact strLeads_false_on_block _ _ _ (by decide) x hx
  have hCj : ∀ x ∈ (blockLines ("sort") (parse_spl s).ops.sorts ++
      (blockLines ("dedup") (parse_spl s).ops.dedups ++
        (blockLines ("table") (if (parse_spl s).ops.tables.isEmpty then
            (parse_spl s).ops.fields_cmds else (parse_spl s).ops.tables) ++
          blockLines ("other") (parse_spl s).ops.others))),
      strLeads ("- **rex**: ") x = false := by
    intro x hx
    simp only [List.mem_append] at hx
    rcases hx with hx | hx | hx | hx <;>
      exact strLeads_false_on_block _ _ _ (by decide) x hx
  have hw1 := getElem_window _ _ _ _ hAi hCi (i : Nat) hi hPi
  have hw2 := getElem_window _ _ _ _ hAj hCj (j : Nat) hj hPj
  simp only [List.length_append] at hw1 hw2
  omega

/-- C5 witness: a concrete query producing one `lookup` line (index 0) and
one `rex` line (index 1). -/
theorem c5_lookup_before_rex_witness : (0 : Nat) < (1 : Nat) :=
  c5_lookup_before_rex ("index=m | rex field=a x | lookup t b | table c")
    ⟨0, by decide⟩ ⟨1, by decide⟩ (by decide) (by decide)

/-!
### C6 — no segment silently dropped?
-/

/-- C6 counterexample: the trailing segment `stats` of `a | stats` has a
recognized keyword but no arguments; `RE_STATS` does not match it (it
requires `\s+` and a non-empty capture), and recognized keywords are
excluded from `others`, so the segment is recorded nowhere. -/
theorem c6_counterexample : ¬ claimSegmentsRecorded ("a | stats") := by
  decide

/-- Every non-empty unrecognized segment is collected by the `others`
loop. -/
theorem collectOthers_mem :
    ∀ (segs : List (List Char)) (seg : List Char), seg ∈ segs →
      (pyStrip seg).isEmpty = false →
      firstTokenLower (pyStrip seg) ∉ essential_cmds →
      strOf (pyStrip seg) ∈ collectOthers segs := by
  intro segs
  induction segs with
  | nil => intro seg h; simp at h
  | cons a rest ih =>
    intro seg hm hne hkw
    rcases List.mem_cons.mp hm with rfl | hm
    · simp only [collectOthers]
      rw [if_neg (by simp [hne]), if_neg hkw]
      exact List.mem_cons_self _ _
    · have hmem := ih seg hm hne hkw
      simp only [collectOthers]
      split_ifs <;> simp [hmem]

/-- C6 amended: the parser is total, and every non-empty trailing pipe
segment whose leading keyword is not recognized is recorded verbatim
(stripped) in the unclassified-other bucket; a recognized-keyword segment
is recorded only when its category pattern matches (a bare keyword without
arguments, or a join without a bracketed subsearch, is dropped — see the
counterexample). -/
theorem c6_unrecognized_in_others (s : String) (seg : List Char)
    (hm : seg ∈ (splitSep '|' (pyStrip s.data)).drop 1)
    (hne : (pyStrip seg).isEmpty = false)
    (hkw : firstTokenLower (pyStrip seg) ∉ essential_cmds) :
    strOf (pyStrip seg) ∈ (parse_spl s).ops.others :=
  collectOthers_mem _ _ hm hne hkw

/-- C6 witness: the unrecognized segment `zzz 1` lands in `others`. -/
theorem c6_unrecognized_in_others_witness :
    strOf (pyStrip (" zzz 1").data) ∈ (parse_spl ("a | zzz 1")).ops.others :=
  c6_unrecognized_in_others ("a | zzz 1") ((" zzz 1").data)
    (by decide) (by decide) (by decide)

/-!
### C8 — adding `earliest=-24h` removes exactly the time-range warning

Adding the token in front of the base segment leaves every scanner's
result unchanged (the 14-character prefix `earliest=-24h ` contains no
pipe and no other recognized token), except that the `earliest` search now
hits the added token.
-/

/-- The head surviving `dropWhile` fails the predicate. -/
theorem dropWhile_head_not (p : Char → Bool) :
    ∀ (l : List Char) (d : Char) (rest : List Char),
      l.dropWhile p = d :: rest → p d = false := by
  intro l
  induction l with
  | nil => intro d rest h; simp [List.dropWhile] at h
  | cons c cs ih =>
    intro d rest h
    rw [List.dropWhile_cons] at h
    by_cases hc : p c
    · rw [if_pos hc] at h; exact ih _ _ h
    · rw [if_neg hc] at h
      cases h
      simpa using hc

/-- The reverse of a stripped list is the right-stripped reverse. -/
theorem pyStrip_reverse (cs : List Char) :
    (pyStrip cs).reverse = (cs.dropWhile isPySpace).reverse.dropWhile isPySpace := by
  simp [pyStrip]

/-- Stripping after prepending `earliest=-24h ` to already-stripped text. -/
theorem pyStrip_addTime (s : String) :
    pyStrip (addTime s).data =
      if pyStrip s.data = [] then ("earliest=-24h").data
      else ("earliest=-24h ").data ++ pyStrip s.data := by
  have hdata : (addTime s).data = ("earliest=-24h ").data ++ pyStrip s.data := rfl
  rw [hdata]
  by_cases h0 : pyStrip s.data = []
  · rw [if_pos h0, h0]
    decide
  · rw [if_neg h0]
    cases hrev : (pyStrip s.data).reverse with
    | nil => exact absurd (by simpa using congrArg List.reverse hrev) h0
    | cons d u =>
      have hd : isPySpace d = false :=
        dropWhile_head_not _ _ _ _ ((pyStrip_reverse s.data).symm.trans hrev)
      show (((("earliest=-24h ").data ++ pyStrip s.data).dropWhile
          isPySpace).reverse.dropWhile isPySpace).reverse = _
      have h1 : (("earliest=-24h ").data ++ pyStrip s.data).dropWhile isPySpace =
          ("earliest=-24h ").data ++ pyStrip s.data := by
        rw [show ("earliest=-24h ").data ++ pyStrip s.data =
            'e' :: (("arliest=-24h ").data ++ pyStrip s.data) from rfl]
        rw [List.dropWhile_cons, if_neg (by decide)]
      rw [h1, List.reverse_append, hrev, List.cons_append, List.dropWhile_cons,
        if_neg (by simp [hd]), ← List.cons_append, ← hrev, ← List.reverse_append,
        List.reverse_reverse]

/-- Scanning a command pattern skips the whole pipe-free prefix
`earliest=-24h `, landing on the original scan. -/
theorem cmdFindAux_skip_time (kw : List Char) (k : CapKind) (t : List Char) :
    cmdFindAux kw k (t.length + 14) (("earliest=-24h ").data ++ t) =
      cmdFindall kw k t := rfl

/-- `re.findall` of a command pattern ignores the added prefix. -/
theorem cmdFindall_time (kw : List Char) (k : CapKind) (t : List Char) :
    cmdFindall kw k (("earliest=-24h ").data ++ t) = cmdFindall kw k t := by
  show cmdFindAux kw k (("earliest=-24h ").data ++ t).length (("earliest=-24h ").data ++ t) = _
  rw [show (("earliest=-24h ").data ++ t).length = t.length + 14 by
    simp [List.length_append]]
  exact cmdFindAux_skip_time kw k t

/-- The join scan skips the added prefix. -/
theorem joinFindAux_skip_time (t : List Char) :
    joinFindAux (t.length + 14) (("earliest=-24h ").data ++ t) = joinFindall t := rfl

/-- `re.findall` of `RE_JOIN` ignores the added prefix. -/
theorem joinFindall_time (t : List Char) :
    joinFindall (("earliest=-24h ").data ++ t) = joinFindall t := by
  show joinFindAux (("earliest=-24h ").data ++ t).length (("earliest=-24h ").data ++ t) = _
  rw [show (("earliest=-24h ").data ++ t).length = t.length + 14 by
    simp [List.length_append]]
  exact joinFindAux_skip_time t

/-- The `index=` scan skips the added prefix (it contains no `index`). -/
theorem tokenFindAux_index_skip (t : List Char) :
    tokenFindAux (("index").data) isIndexVal false (t.length + 14) true
        (("earliest=-24h ").data ++ t) =
      tokenFindall (("index").data) isIndexVal false t := rfl

/-- `RE_INDEX.findall` ignores the added prefix. -/
theorem tokenFindall_index_time (t : List Char) :
    tokenFindall (("index").data) isIndexVal false (("earliest=-24h ").data ++ t) =
      tokenFindall (("index").data) isIndexVal false t := by
  show tokenFindAux _ _ _ (("earliest=-24h ").data ++ t).length true _ = _
  rw [show (("earliest=-24h ").data ++ t).length = t.length + 14 by
    simp [List.length_append]]
  exact tokenFindAux_index_skip t

/-- The `sourcetype=` scan skips the added prefix. -/
theorem tokenFindAux_stype_skip (t : List Char) :
    tokenFindAux (("sourcetype").data) isStypeVal true (t.length + 14) true
        (("earliest=-24h ").data ++ t) =
      tokenFindall (("sourcetype").data) isStypeVal true t := rfl

/-- `RE_SOURCETYPE.findall` ignores the added prefix. -/
theorem tokenFindall_stype_time (t : List Char) :
    tokenFindall (("sourcetype").data) isStypeVal true (("earliest=-24h ").data ++ t) =
      tokenFindall (("sourcetype").data) isStypeVal true t := by
  show tokenFindAux _ _ _ (("earliest=-24h ").data ++ t).length true _ = _
  rw [show (("earliest=-24h ").data ++ t).length = t.length + 14 by
    simp [List.length_append]]
  exact tokenFindAux_stype_skip t

/-- `RE_LATEST.search` ignores the added prefix (which contains no
`latest` occurrence). -/
theorem tokenSearch_latest_time (t : List Char) :
    tokenSearch (("latest").data) isTimeVal false (("earliest=-24h ").data ++ t) =
      tokenSearch (("latest").data) isTimeVal false t := rfl

/-- `RE_EARLIEST.search` on the prefixed query hits the added token and
captures `-24h`, whatever follows. -/
theorem tokenSearch_earliest_time (t : List Char) :
    tokenSearch (("earliest").data) isTimeVal false (("earliest=-24h ").data ++ t) =
      some (("-24h").data) := rfl

/-- `validate_spl` after parsing, unfolded to the scanners (definitional). -/
theorem validate_parseText (x : List Char) :
    validate_spl (parseText x) =
      (if ((tokenFindall (("index").data) isIndexVal false x).map strOf).isEmpty &&
          ((tokenFindall (("sourcetype").data) isStypeVal true x).map strOf).isEmpty then
        ["데이터 소스(index/sourcetype) 미지정"] else []) ++
      (if (tokenSearch (("earliest").data) isTimeVal false x).map strOf = none &&
          (tokenSearch (("latest").data) isTimeVal false x).map strOf = none then
        [timeWarn] else []) ++
      (if ((joinFindall x).map (fun g => (strOf (normWs g.1), strOf (normWs g.2)))).isEmpty then []
       else ["join 사용 → 대규모 데이터에서 성능 저하 가능. 키 정합성과 선필터 권장"]) ++
      (if ((cmdFindall (("transaction").data) .nonPipe x).map (fun c => strOf (normWs c))).isEmpty then []
       else ["transaction 사용 → 리소스 소모 큼. 대안(stats/correlation) 검토"]) ++
      (if ((cmdFindall (("table").data) (.lazyLA false) x).map (fun c => strOf (normWs c))).isEmpty &&
          ((cmdFindall (("fields").data) (.lazyLA false) x).map (fun c => strOf (normWs c))).isEmpty then
        ["출력 필드(table/fields) 미지정 → 결과 해석 어려움"] else []) ++
      (if !((cmdFindall (("where").data) (.lazyLA true) x).map (fun c => strOf (normWs c))).isEmpty &&
          !((cmdFindall (("where").data) (.lazyLA true) x).map (fun c => strOf (normWs c))).any
            (fun w => numThresh w.data) then
        ["where에 수치 임계 조건 부재 → 탐지 기준 불명확 가능"] else []) := rfl

/-- Core of C8 at the level of stripped text: prefixing `earliest=-24h `
to a query with no time bounds removes exactly the time warning. -/
theorem validate_time_removed (t : List Char)
    (he : tokenSearch (("earliest").data) isTimeVal false t = none)
    (hl : tokenSearch (("latest").data) isTimeVal false t = none) :
    validate_spl (parseText (("earliest=-24h ").data ++ t)) =
      (validate_spl (parseText t)).filter (fun w => w != timeWarn) := by
  rw [validate_parseText, validate_parseText,
    tokenFindall_index_time, tokenFindall_stype_time, tokenSearch_latest_time,
    tokenSearch_earliest_time, joinFindall_time, cmdFindall_time, cmdFindall_time,
    cmdFindall_time, cmdFindall_time, he, hl]
  simp only [Option.map_none', Option.map_some', List.filter_append, apply_ite
    (List.filter (fun w => w != timeWarn))]
  norm_num
  split_ifs <;> simp_all <;> decide

/-- C8: a query with neither time bound always gets the unbounded-time
warning, and the same query with `earliest=-24h` added yields exactly the
same warning list minus that warning. -/
theorem c8_time_warning_removal (s : String)
    (he : (parse_spl s).overview.earliest = none)
    (hl : (parse_spl s).overview.latest = none) :
    timeWarn ∈ validate_spl (parse_spl s) ∧
    validate_spl (parse_spl (addTime s)) =
      (validate_spl (parse_spl s)).filter (fun w => w != timeWarn) := by
  have he' : tokenSearch (("earliest").data) isTimeVal false (pyStrip s.data) = none :=
    Option.map_eq_none'.mp he
  have hl' : tokenSearch (("latest").data) isTimeVal false (pyStrip s.data) = none :=
    Option.map_eq_none'.mp hl
  constructor
  · simp [validate_spl, he, hl]
  · show validate_spl (parseText (pyStrip (addTime s).data)) = _
    rw [pyStrip_addTime]
    by_cases h0 : pyStrip s.data = []
    · rw [if_pos h0]
      show _ = (validate_spl (parseText (pyStrip s.data))).filter _
      rw [h0]
      decide
    · rw [if_neg h0]
      exact validate_time_removed (pyStrip s.data) he' hl'

/-- C8 witness: `index=m | table x` has no time bounds; the time warning
is present, and adding `earliest=-24h` removes exactly it. -/
theorem c8_time_warning_removal_witness :
    timeWarn ∈ validate_spl (parse_spl ("index=m | table x")) ∧
    validate_spl (parse_spl (addTime ("index=m | table x"))) =
      (validate_spl (parse_spl ("index=m | table x"))).filter (fun w => w != timeWarn) :=
  c8_time_warning_removal ("index=m | table x") (by decide) (by decide)

/-!
### C10 — commands inside a join subsearch are recorded twice

The category regexes scan the entire raw text independently of
segmentation, so a `| stats ...` inside a bracketed subsearch also lands
in the stats bucket.
-/

/-- With `re.S` the lazy capture always succeeds on a non-empty suffix
(the `$` lookahead branch holds at the very end). -/
theorem lazyCapLA_total :
    ∀ (cs : List Char), cs ≠ [] → (lazyCapLA true cs).isSome = true := by
  intro cs
  induction cs with
  | nil => intro h; exact absurd rfl h
  | cons c rest ih =>
    intro _
    simp only [lazyCapLA]
    by_cases hla : laOk rest
    · simp [hla]
    · cases rest with
      | nil => simp [laOk] at hla
      | cons d r2 =>
        have h2 := ih (by simp)
        cases hr : lazyCapLA true (d :: r2) with
        | some t => simp [hla, hr]
        | none => rw [hr] at h2; simp at h2

/-- If the stats pattern matches at some position, the whole-text scan is
non-empty (either an earlier match fired, or the scan reaches this one). -/
theorem cmdFindAux_ne_nil (kw : List Char) (k : CapKind) :
    ∀ (fuel : Nat) (cs : List Char), cs.length ≤ fuel →
      ∀ i, i < cs.length → (cmdTry kw k (cs.drop i)).isSome = true →
        cmdFindAux kw k fuel cs ≠ [] := by
  intro fuel
  induction fuel with
  | zero =>
    intro cs hle i hi _
    omega
  | succ f ih =>
    intro cs hle i hi htry
    cases cs with
    | nil => simp at hi
    | cons c rest =>
      cases h : cmdTry kw k (c :: rest) with
      | some capn => simp [cmdFindAux, h]
      | none =>
        cases i with
        | zero =>
          rw [List.drop_zero, h] at htry
          simp at htry
        | succ i' =>
          simp only [cmdFindAux, h]
          exact ih rest (by simpa using Nat.le_of_succ_le_succ hle) i'
            (by simpa using hi) (by simpa using htry)

/-- The stats pattern matches at `| stats count]...` whatever follows. -/
theorem cmdTry_stats_mid (b : List Char) :
    (cmdTry (("stats").data) (.lazyLA true) (("| stats count]").data ++ b)).isSome = true := by
  obtain ⟨cap, hcap⟩ := Option.isSome_iff_exists.mp
    (lazyCapLA_total ((("count]").data ++ b)) (by simp))
  have h2 : tryWs (.lazyLA true) ((" count]").data ++ b) 1 = some (cap, 0 + 1 + cap.length) := by
    simp only [tryWs, capAttempt]
    rw [show (((" count]").data ++ b).drop (0 + 1)) = ("count]").data ++ b from rfl]
    rw [hcap]
  have h1 : cmdTry (("stats").data) (.lazyLA true) (("| stats count]").data ++ b) =
      some (cap, 1 + 1 + 5 + (0 + 1 + cap.length)) := by
    rw [show ("| stats count]").data ++ b = '|' :: ((" stats count]").data ++ b) from rfl]
    simp only [cmdTry]
    rw [show (((" stats count]").data ++ b).takeWhile isPySpace).length = 1 from rfl]
    rw [show chopLitCI (("stats").data) (((" stats count]").data ++ b).drop 1) =
        some ((" count]").data ++ b) from rfl]
    dsimp only
    rw [show (((" count]").data ++ b).takeWhile isPySpace).length = 1 from rfl]
    rw [h2]
    rfl
  rw [h1]
  rfl

/-- C10: whenever the fragment `| join host [search foo | stats count]`
occurs in the text, the stats bucket is non-empty — the `stats` inside the
subsearch is also recorded in its own category, because every category
pattern scans the entire raw text; concretely, for
`index=main | join host [search foo | stats count] | table x` the command
appears inside the join entry's subsearch body and again (as `count]`) in
the stats bucket. -/
theorem c10_double_recording :
    (∀ a b : List Char,
      ((parseText (a ++ (("| join host [search foo | stats count]").data ++ b))).ops.stats).isEmpty
        = false) ∧
    (parse_spl ("index=main | join host [search foo | stats count] | table x")).ops.joins =
      [("host", "search foo | stats count")] ∧
    (parse_spl ("index=main | join host [search foo | stats count] | table x")).ops.stats =
      ["count]"] := by
  refine ⟨?_, by decide, by decide⟩
  intro a b
  have hsplit : a ++ (("| join host [search foo | stats count]").data ++ b) =
      (a ++ ("| join host [search foo ").data) ++ (("| stats count]").data ++ b) := by
    simp [List.append_assoc]
  have hdrop : ((a ++ ("| join host [search foo ").data) ++ (("| stats count]").data ++ b)).drop
      (a ++ ("| join host [search foo ").data).length = ("| stats count]").data ++ b :=
    List.drop_left _ _
  have hne : cmdFindall (("stats").data) (.lazyLA true)
      (a ++ (("| join host [search foo | stats count]").data ++ b)) ≠ [] := by
    rw [hsplit]
    apply cmdFindAux_ne_nil (("stats").data) (.lazyLA true) _ _ (Nat.le_refl _)
      (a ++ ("| join host [search foo ").data).length
    · simp [List.length_append]
    · rw [hdrop]
      exact cmdTry_stats_mid b
  show ((cmdFindall (("stats").data) (.lazyLA true)
      (a ++ (("| join host [search foo | stats count]").data ++ b))).map
        (fun c => strOf (normWs c))).isEmpty = false
  cases hx : cmdFindall (("stats").data) (.lazyLA true)
      (a ++ (("| join host [search foo | stats count]").data ++ b)) with
  | nil => exact absurd hx hne
  | cons y ys => simp

/-!
### C2 amended — exactly nine headings for `#`-free inputs

The counterexample above injects a heading through a multi-line
unclassified segment; for an input containing no `#` at all, every
dynamic fragment of the document is `#`-free, and the heading lines are
exactly the nine fixed ones.  The lemmas below track which characters the
scanners can emit.
-/

/-- `String.append` concatenates the underlying data. -/
theorem strData_append (a b : String) : (a ++ b).data = a.data ++ b.data := rfl

/-- `strOf` is a left inverse of `String.data`. -/
theorem strOf_data (s : String) : strOf s.data = s := rfl

/-- Splitting never yields the empty list of pieces. -/
theorem splitSep_ne_nil (sep : Char) : ∀ (cs : List Char), splitSep sep cs ≠ [] := by
  intro cs
  cases cs with
  | nil => simp [splitSep]
  | cons c rest =>
    simp only [splitSep]
    by_cases hc : c = sep
    · simp [hc]
    · rw [if_neg hc]
      cases h : splitSep sep rest <;> simp

/-- Splitting distributes over a separator occurrence. -/
theorem splitSep_append_sep (sep : Char) :
    ∀ (a b : List Char), splitSep sep (a ++ sep :: b) = splitSep sep a ++ splitSep sep b := by
  intro a b
  induction a with
  | nil => simp [splitSep]
  | cons c as_ ih =>
    show splitSep sep (c :: (as_ ++ sep :: b)) = splitSep sep (c :: as_) ++ splitSep sep b
    by_cases hc : c = sep
    · simp only [splitSep, if_pos hc, ih, List.cons_append]
    · cases h : splitSep sep as_ with
      | nil => exact absurd h (splitSep_ne_nil sep as_)
      | cons x xs =>
        simp only [splitSep, if_neg hc, ih, h, List.cons_append]

/-- Splitting a separator-free list is the identity. -/
theorem splitSep_no_sep (sep : Char) :
    ∀ (a : List Char), sep ∉ a → splitSep sep a = [a] := by
  intro a
  induction a with
  | nil => intro _; rfl
  | cons c as_ ih =>
    intro h
    have hc : ¬ c = sep := fun hh => h (by simp [hh])
    have has : sep ∉ as_ := fun hh => h (List.mem_cons_of_mem _ hh)
    simp [splitSep, hc, ih has]

/-- Characters of split pieces come from the split list. -/
theorem splitSep_chars (sep : Char) :
    ∀ (cs : List Char) (l : List Char), l ∈ splitSep sep cs → ∀ c ∈ l, c ∈ cs := by
  intro cs
  induction cs with
  | nil =>
    intro l hl c hc
    simp [splitSep] at hl
    subst hl
    simp at hc
  | cons d rest ih =>
    intro l hl c hc
    simp only [splitSep] at hl
    by_cases hd : d = sep
    · rw [if_pos hd] at hl
      rcases List.mem_cons.mp hl with rfl | hl
      · simp at hc
      · exact List.mem_cons_of_mem _ (ih l hl c hc)
    · rw [if_neg hd] at hl
      cases h : splitSep sep rest with
      | nil => exact absurd h (splitSep_ne_nil sep rest)
      | cons x xs =>
        rw [h] at hl
        rcases List.mem_cons.mp hl with rfl | hl
        · rcases List.mem_cons.mp hc with rfl | hc
          · exact List.mem_cons_self _ _
          · exact List.mem_cons_of_mem _ (ih x (by simp [h]) c hc)
        · exact List.mem_cons_of_mem _ (ih l (by simp [h, hl]) c hc)

/-- Characters of the stripped list come from the original. -/
theorem pyStrip_subset (cs : List Char) : ∀ c ∈ pyStrip cs, c ∈ cs := by
  intro c hc
  simp only [pyStrip, List.mem_reverse] at hc
  have h1 := (List.dropWhile_sublist (l := (cs.dropWhile isPySpace).reverse)
    (p := isPySpace)).subset hc
  rw [List.mem_reverse] at h1
  exact (List.dropWhile_sublist (p := isPySpace)).subset h1

/-- Characters of the collapsed list are spaces or original characters. -/
theorem collapseWs_mem :
    ∀ (b : Bool) (l : List Char) (c : Char), c ∈ collapseWs b l → c = ' ' ∨ c ∈ l := by
  intro b l
  induction l generalizing b with
  | nil => intro c hc; simp [collapseWs] at hc
  | cons d rest ih =>
    intro c hc
    simp only [collapseWs] at hc
    by_cases hd : isPySpace d
    · rw [if_pos hd] at hc
      by_cases hb : b
      · rw [if_pos hb] at hc
        rcases ih true c hc with h | h
        · exact Or.inl h
        · exact Or.inr (List.mem_cons_of_mem _ h)
      · rw [if_neg hb] at hc
        rcases List.mem_cons.mp hc with rfl | hc
        · exact Or.inl rfl
        · rcases ih true c hc with h | h
          · exact Or.inl h
          · exact Or.inr (List.mem_cons_of_mem _ h)
    · rw [if_neg hd] at hc
      rcases List.mem_cons.mp hc with rfl | hc
      · exact Or.inr (List.mem_cons_self _ _)
      · rcases ih false c hc with h | h
        · exact Or.inl h
        · exact Or.inr (List.mem_cons_of_mem _ h)

/-- Characters of a normalized entry are spaces or original characters. -/
theorem normWs_mem (l : List Char) (c : Char) (hc : c ∈ normWs l) : c = ' ' ∨ c ∈ l := by
  rcases collapseWs_mem false (pyStrip l) c hc with h | h
  · exact Or.inl h
  · exact Or.inr (pyStrip_subset l c h)

/-- The rest after matching a literal case-insensitively is a suffix. -/
theorem chopLitCI_subset :
    ∀ (lit cs r : List Char), chopLitCI lit cs = some r → ∀ c ∈ r, c ∈ cs := by
  intro lit
  induction lit with
  | nil =>
    intro cs r h c hc
    simp [chopLitCI] at h
    subst h
    exact hc
  | cons p ps ih =>
    intro cs r h c hc
    cases cs with
    | nil => simp [chopLitCI] at h
    | cons d rest =>
      simp only [chopLitCI] at h
      by_cases hd : d.toLower = p
      · rw [if_pos hd] at h
        exact List.mem_cons_of_mem _ (ih rest r h c hc)
      · rw [if_neg hd] at h
        exact absurd h (by simp)

/-- The lazy lookahead capture takes characters from its input. -/
theorem lazyCapLA_subset :
    ∀ (d : Bool) (cs t : List Char), lazyCapLA d cs = some t → ∀ c ∈ t, c ∈ cs := by
  intro d cs
  induction cs with
  | nil => intro t h; simp [lazyCapLA] at h
  | cons a rest ih =>
    intro t h c hc
    simp only [lazyCapLA] at h
    by_cases h1 : !d && a = '\n'
    · rw [if_pos h1] at h; exact absurd h (by simp)
    · rw [if_neg h1] at h
      by_cases h2 : laOk rest
      · rw [if_pos h2] at h
        cases h
        rcases List.mem_cons.mp hc with rfl | hc2
        · exact List.mem_cons_self _ _
        · simp at hc2
      · rw [if_neg h2] at h
        cases hr : lazyCapLA d rest with
        | none => rw [hr] at h; exact absurd h (by simp)
        | some u =>
          rw [hr] at h
          cases h
          rcases List.mem_cons.mp hc with rfl | hc
          · exact List.mem_cons_self _ _
          · exact List.mem_cons_of_mem _ (ih u hr c hc)

/-- A successful class capture is the `takeWhile` of its input. -/
theorem capCls_mem_eq (cls : Char → Bool) (r cap : List Char)
    (h : capCls cls r = some cap) : cap = r.takeWhile cls := by
  unfold capCls at h
  split at h
  · simp at h
  · simp only [Option.some.injEq] at h
    exact h.symm

/-- Characters of a class capture satisfy the class. -/
theorem capCls_cls (cls : Char → Bool) (r cap : List Char)
    (h : capCls cls r = some cap) : ∀ c ∈ cap, cls c = true := by
  intro c hc
  rw [capCls_mem_eq cls r cap h] at hc
  exact List.mem_takeWhile_imp hc

/-- The command capture takes characters from its input. -/
theorem capAttempt_subset (k : CapKind) (cs t : List Char)
    (h : capAttempt k cs = some t) : ∀ c ∈ t, c ∈ cs := by
  cases k with
  | lazyLA d => exact lazyCapLA_subset d cs t h
  | nonPipe =>
    intro c hc
    simp only [capAttempt] at h
    exact (List.takeWhile_sublist _).subset (capCls_mem_eq _ _ _ h ▸ hc)

/-- The whitespace-backtracking capture takes characters from its input. -/
theorem tryWs_subset (k : CapKind) (cs : List Char) :
    ∀ (q : Nat) (cap : List Char) (n : Nat), tryWs k cs q = some (cap, n) →
      ∀ c ∈ cap, c ∈ cs := by
  intro q
  induction q with
  | zero => intro cap n h; simp [tryWs] at h
  | succ q' ih =>
    intro cap n h c hc
    simp only [tryWs] at h
    cases ha : capAttempt k (cs.drop (q' + 1)) with
    | some t =>
      rw [ha] at h
      cases h
      exact (List.drop_sublist _ _).subset (capAttempt_subset k _ _ ha c hc)
    | none =>
      rw [ha] at h
      exact ih cap n h c hc

/-- A command-pattern capture takes characters from the scanned text. -/
theorem cmdTry_subset (kw : List Char) (k : CapKind) :
    ∀ (cs cap : List Char) (n : Nat), cmdTry kw k cs = some (cap, n) →
      ∀ c ∈ cap, c ∈ cs := by
  intro cs cap n h c hc
  unfold cmdTry at h
  split at h
  · rename_i r1
    dsimp only at h
    cases hch : chopLitCI kw (r1.drop (r1.takeWhile isPySpace).length) with
    | none => rw [hch] at h; simp at h
    | some r2 =>
      rw [hch] at h
      dsimp only at h
      cases htw : tryWs k r2 (r2.takeWhile isPySpace).length with
      | none => rw [htw] at h; simp at h
      | some capn =>
        rw [htw] at h
        obtain ⟨cap2, n2⟩ := capn
        dsimp only at h
        simp only [Option.some.injEq, Prod.mk.injEq] at h
        obtain ⟨hcap, hn⟩ := h
        subst hcap
        have h1 : c ∈ r2 := tryWs_subset k r2 _ cap2 n2 htw c hc
        have h2 : c ∈ r1.drop (r1.takeWhile isPySpace).length :=
          chopLitCI_subset kw _ r2 hch c h1
        exact List.mem_cons_of_mem _ ((List.drop_sublist _ _).subset h2)
  · simp at h

/-- Captures of the command scan take characters from the text. -/
theorem cmdFindAux_subset (kw : List Char) (k : CapKind) :
    ∀ (fuel : Nat) (cs cap : List Char), cap ∈ cmdFindAux kw k fuel cs →
      ∀ c ∈ cap, c ∈ cs := by
  intro fuel
  induction fuel with
  | zero => intro cs cap h; simp [cmdFindAux] at h
  | succ f ih =>
    intro cs cap h c hc
    cases cs with
    | nil => simp [cmdFindAux] at h
    | cons a rest =>
      simp only [cmdFindAux] at h
      cases ht : cmdTry kw k (a :: rest) with
      | some capn =>
        rw [ht] at h
        obtain ⟨cap2, n⟩ := capn
        rcases List.mem_cons.mp h with rfl | h
        · exact cmdTry_subset kw k _ _ _ ht c hc
        · exact (List.drop_sublist _ _).subset (ih _ cap h c hc)
      | none =>
        rw [ht] at h
        exact List.mem_cons_of_mem _ (ih rest cap h c hc)

/-- The second join capture takes characters from its input. -/
theorem g2Cap_subset :
    ∀ (cs t : List Char), g2Cap cs = some t → ∀ c ∈ t, c ∈ cs := by
  intro cs
  induction cs with
  | nil => intro t h; simp [g2Cap] at h
  | cons c rest ih =>
    intro t h x hx
    cases rest with
    | nil => simp [g2Cap] at h
    | cons d r2 =>
      simp only [g2Cap] at h
      by_cases hd : d = ']'
      · rw [if_pos hd] at h
        cases h
        rcases List.mem_cons.mp hx with rfl | hx2
        · exact List.mem_cons_self _ _
        · simp at hx2
      · rw [if_neg hd] at h
        cases hg : g2Cap (d :: r2) with
        | none => rw [hg] at h; simp at h
        | some u =>
          rw [hg] at h
          cases h
          rcases List.mem_cons.mp hx with rfl | hx2
          · exact List.mem_cons_self _ _
          · exact List.mem_cons_of_mem _ (ih u hg x hx2)

/-- Both join captures take characters from their input. -/
theorem joinCap_subset :
    ∀ (cs g1 g2 : List Char), joinCap cs = some (g1, g2) →
      (∀ c ∈ g1, c ∈ cs) ∧ (∀ c ∈ g2, c ∈ cs) := by
  intro cs
  induction cs with
  | nil => intro g1 g2 h; simp [joinCap] at h
  | cons c rest ih =>
    intro g1 g2 h
    unfold joinCap at h
    split at h
    · rename_i r2
      cases hg : g2Cap r2 with
      | some u =>
        rw [hg] at h
        dsimp only at h
        simp only [Option.some.injEq, Prod.mk.injEq] at h
        obtain ⟨h1, h2⟩ := h
        subst h1
        subst h2
        constructor
        · intro x hx
          rcases List.mem_cons.mp hx with rfl | hx2
          · exact List.mem_cons_self _ _
          · simp at hx2
        · intro x hx
          exact List.mem_cons_of_mem _ (List.mem_cons_of_mem _ (g2Cap_subset r2 _ hg x hx))
      | none =>
        rw [hg] at h
        dsimp only at h
        cases hj : joinCap ('[' :: r2) with
        | none => rw [hj] at h; simp at h
        | some gg =>
          rw [hj] at h
          obtain ⟨a, b⟩ := gg
          simp only [Option.some.injEq, Prod.mk.injEq] at h
          obtain ⟨h1, h2⟩ := h
          subst h1
          subst h2
          obtain ⟨ha, hb⟩ := ih a b hj
          constructor
          · intro x hx
            rcases List.mem_cons.mp hx with rfl | hx2
            · exact List.mem_cons_self _ _
            · exact List.mem_cons_of_mem _ (ha x hx2)
          · intro x hx
            exact List.mem_cons_of_mem _ (hb x hx)
    · cases hj : joinCap rest with
      | none => rw [hj] at h; simp at h
      | some gg =>
        rw [hj] at h
        obtain ⟨a, b⟩ := gg
        simp only [Option.some.injEq, Prod.mk.injEq] at h
        obtain ⟨h1, h2⟩ := h
        subst h1
        subst h2
        obtain ⟨ha, hb⟩ := ih a b hj
        constructor
        · intro x hx
          rcases List.mem_cons.mp hx with rfl | hx2
          · exact List.mem_cons_self _ _
          · exact List.mem_cons_of_mem _ (ha x hx2)
        · intro x hx
          exact List.mem_cons_of_mem _ (hb x hx)

/-- The whitespace-backtracking join capture takes characters from its
input. -/
theorem tryWsJoin_subset (cs : List Char) :
    ∀ (q : Nat) (g1 g2 : List Char) (n : Nat), tryWsJoin cs q = some ((g1, g2), n) →
      (∀ c ∈ g1, c ∈ cs) ∧ (∀ c ∈ g2, c ∈ cs) := by
  intro q
  induction q with
  | zero => intro g1 g2 n h; simp [tryWsJoin] at h
  | succ q' ih =>
    intro g1 g2 n h
    simp only [tryWsJoin] at h
    cases hj : joinCap (cs.drop (q' + 1)) with
    | some gg =>
      rw [hj] at h
      obtain ⟨a, b⟩ := gg
      simp only [Option.some.injEq, Prod.mk.injEq] at h
      obtain ⟨⟨h1, h2⟩, _⟩ := h
      subst h1
      subst h2
      obtain ⟨ha, hb⟩ := joinCap_subset _ _ _ hj
      exact ⟨fun c hc => (List.drop_sublist _ _).subset (ha c hc),
             fun c hc => (List.drop_sublist _ _).subset (hb c hc)⟩
    | none =>
      rw [hj] at h
      exact ih g1 g2 n h

/-- Both captures of a join match take characters from the scanned text. -/
theorem joinTry_subset :
    ∀ (cs g1 g2 : List Char) (n : Nat), joinTry cs = some ((g1, g2), n) →
      (∀ c ∈ g1, c ∈ cs) ∧ (∀ c ∈ g2, c ∈ cs) := by
  intro cs g1 g2 n h
  unfold joinTry at h
  split at h
  · rename_i r1
    dsimp only at h
    cases hch : chopLitCI (("join").data) (r1.drop (r1.takeWhile isPySpace).length) with
    | none => rw [hch] at h; simp at h
    | some r2 =>
      rw [hch] at h
      dsimp only at h
      cases htw : tryWsJoin r2 (r2.takeWhile isPySpace).length with
      | none => rw [htw] at h; simp at h
      | some ggn =>
        rw [htw] at h
        obtain ⟨⟨a, b⟩, n2⟩ := ggn
        dsimp only at h
        simp only [Option.some.injEq, Prod.mk.injEq] at h
        obtain ⟨⟨h1, h2⟩, _⟩ := h
        subst h1
        subst h2
        obtain ⟨ha, hb⟩ := tryWsJoin_subset r2 _ a b n2 htw
        refine ⟨fun c hc => ?_, fun c hc => ?_⟩ <;>
          exact List.mem_cons_of_mem _
            ((List.drop_sublist _ _).subset (chopLitCI_subset _ _ r2 hch c
              (by first | exact ha c hc | exact hb c hc)))
  · simp at h

/-- Captures of the join scan take characters from the text. -/
theorem joinFindAux_subset :
    ∀ (fuel : Nat) (cs : List Char) (g : List Char × List Char), g ∈ joinFindAux fuel cs →
      (∀ c ∈ g.1, c ∈ cs) ∧ (∀ c ∈ g.2, c ∈ cs) := by
  intro fuel
  induction fuel with
  | zero => intro cs g h; simp [joinFindAux] at h
  | succ f ih =>
    intro cs g h
    cases cs with
    | nil => simp [joinFindAux] at h
    | cons a rest =>
      simp only [joinFindAux] at h
      cases ht : joinTry (a :: rest) with
      | some ggn =>
        rw [ht] at h
        obtain ⟨⟨g1, g2⟩, n⟩ := ggn
        rcases List.mem_cons.mp h with rfl | h
        · exact joinTry_subset _ _ _ _ ht
        · obtain ⟨ha, hb⟩ := ih _ g h
          exact ⟨fun c hc => (List.drop_sublist _ _).subset (ha c hc),
                 fun c hc => (List.drop_sublist _ _).subset (hb c hc)⟩
      | none =>
        rw [ht] at h
        obtain ⟨ha, hb⟩ := ih rest g h
        exact ⟨fun c hc => List.mem_cons_of_mem _ (ha c hc),
               fun c hc => List.mem_cons_of_mem _ (hb c hc)⟩

/-- A token capture consists of class characters only. -/
theorem tokenTry_cls (kw : List Char) (cls : Char → Bool) (quoted : Bool)
    (bnd : Bool) (cs cap : List Char) (n : Nat)
    (h : tokenTry kw cls quoted bnd cs = some (cap, n)) :
    ∀ c ∈ cap, cls c = true := by
  intro c hc
  unfold tokenTry at h
  split at h
  · split at h
    · simp at h
    · dsimp only at h
      split at h
      · split at h
        · simp at h
        · rename_i hcap
          simp only [Option.some.injEq, Prod.mk.injEq] at h
          obtain ⟨h1, _⟩ := h
          subst h1
          exact capCls_cls _ _ _ hcap c hc
      · simp at h
  · simp at h

/-- Token-scan captures consist of class characters only. -/
theorem tokenFindAux_cls (kw : List Char) (cls : Char → Bool) (quoted : Bool) :
    ∀ (fuel : Nat) (bnd : Bool) (cs cap : List Char),
      cap ∈ tokenFindAux kw cls quoted fuel bnd cs → ∀ c ∈ cap, cls c = true := by
  intro fuel
  induction fuel with
  | zero => intro bnd cs cap h; simp [tokenFindAux] at h
  | succ f ih =>
    intro bnd cs cap h c hc
    cases cs with
    | nil => simp [tokenFindAux] at h
    | cons a rest =>
      simp only [tokenFindAux] at h
      cases ht : tokenTry kw cls quoted bnd (a :: rest) with
      | some capn =>
        rw [ht] at h
        obtain ⟨cap2, n⟩ := capn
        rcases List.mem_cons.mp h with rfl | h
        · exact tokenTry_cls kw cls quoted bnd _ _ _ ht c hc
        · exact ih _ _ cap h c hc
      | none =>
        rw [ht] at h
        exact ih _ rest cap h c hc

/-- Token-search captures consist of class characters only. -/
theorem tokenSearchAux_cls (kw : List Char) (cls : Char → Bool) (quoted : Bool) :
    ∀ (bnd : Bool) (cs cap : List Char),
      tokenSearchAux kw cls quoted bnd cs = some cap → ∀ c ∈ cap, cls c = true := by
  intro bnd cs
  induction cs generalizing bnd with
  | nil => intro cap h; simp [tokenSearchAux] at h
  | cons a rest ih =>
    intro cap h c hc
    simp only [tokenSearchAux] at h
    cases ht : tokenTry kw cls quoted bnd (a :: rest) with
    | some capn =>
      rw [ht] at h
      obtain ⟨cap2, n⟩ := capn
      cases h
      exact tokenTry_cls kw cls quoted bnd _ _ _ ht c hc
    | none =>
      rw [ht] at h
      exact ih _ cap h c hc

/-- The maxspan value capture consists of `[\w:]` characters only. -/
theorem maxspanRest_cls (cs v : List Char) (h : maxspanRest cs = some v) :
    ∀ c ∈ v, isSpanVal c = true := by
  intro c hc
  unfold maxspanRest at h
  split at h
  · simp at h
  · split at h
    · exact capCls_cls _ _ _ h c hc
    · simp at h

/-- The backtracking gap search also yields class-only captures. -/
theorem maxspanIn_cls :
    ∀ (cs v : List Char), maxspanIn cs = some v → ∀ c ∈ v, isSpanVal c = true := by
  intro cs
  induction cs with
  | nil => intro v h; simp [maxspanIn] at h
  | cons a rest ih =>
    intro v h c hc
    simp only [maxspanIn] at h
    by_cases ha : a = '|'
    · rw [if_pos ha] at h; simp at h
    · rw [if_neg ha] at h
      cases hm : maxspanIn rest with
      | some u =>
        rw [hm] at h
        simp only [Option.some.injEq] at h
        subst h
        exact ih _ hm c hc
      | none =>
        rw [hm] at h
        exact maxspanRest_cls _ _ h c hc

/-- The full maxspan search yields class-only captures. -/
theorem maxspanSearch_cls :
    ∀ (cs v : List Char), maxspanSearch cs = some v → ∀ c ∈ v, isSpanVal c = true := by
  intro cs
  induction cs with
  | nil => intro v h; simp [maxspanSearch] at h
  | cons a rest ih =>
    intro v h c hc
    simp only [maxspanSearch] at h
    cases hm : maxspanAt (a :: rest) with
    | some u =>
      rw [hm] at h
      simp only [Option.some.injEq] at h
      subst h
      unfold maxspanAt at hm
      cases hch : chopLitCI (("transaction").data) (a :: rest) with
      | none => rw [hch] at hm; simp at hm
      | some r =>
        rw [hch] at hm
        exact maxspanIn_cls r _ hm c hc
    | none =>
      rw [hm] at h
      exact ih v h c hc

/-- Characters of `others` entries come from the split segments. -/
theorem collectOthers_subset :
    ∀ (segs : List (List Char)) (o : String), o ∈ collectOthers segs →
      ∀ c ∈ o.data, ∃ seg ∈ segs, c ∈ seg := by
  intro segs
  induction segs with
  | nil => intro o h; simp [collectOthers] at h
  | cons a rest ih =>
    intro o h c hc
    simp only [collectOthers] at h
    split_ifs at h with h1 h2
    · obtain ⟨seg, hs, hcs⟩ := ih o h c hc
      exact ⟨seg, List.mem_cons_of_mem _ hs, hcs⟩
    · obtain ⟨seg, hs, hcs⟩ := ih o h c hc
      exact ⟨seg, List.mem_cons_of_mem _ hs, hcs⟩
    · rcases List.mem_cons.mp h with rfl | h
      · exact ⟨a, List.mem_cons_self _ _, pyStrip_subset a c hc⟩
      · obtain ⟨seg, hs, hcs⟩ := ih o h c hc
        exact ⟨seg, List.mem_cons_of_mem _ hs, hcs⟩

/-- Characters of an intercalation come from the separator or the
pieces. -/
theorem interStr_mem (sep : String) :
    ∀ (l : List String) (c : Char), c ∈ (interStr sep l).data →
      c ∈ sep.data ∨ ∃ e ∈ l, c ∈ e.data := by
  intro l
  induction l with
  | nil => intro c hc; simp [interStr] at hc
  | cons x ys ih =>
    cases ys with
    | nil =>
      intro c hc
      exact Or.inr ⟨x, by simp, hc⟩
    | cons y rest =>
      intro c hc
      rw [show interStr sep (x :: y :: rest) = x ++ sep ++ interStr sep (y :: rest) from rfl,
        strData_append, strData_append] at hc
      rcases List.mem_append.mp hc with hc2 | hc2
      · rcases List.mem_append.mp hc2 with hc3 | hc3
        · exact Or.inr ⟨x, by simp, hc3⟩
        · exact Or.inl hc3
      · rcases ih c hc2 with h | ⟨e, he, hce⟩
        · exact Or.inl h
        · exact Or.inr ⟨e, List.mem_cons_of_mem _ he, hce⟩

/-- Sorted insertion preserves membership sources. -/
theorem insSorted_mem :
    ∀ (l : List String) (y x : String), x ∈ insSorted y l → x = y ∨ x ∈ l := by
  intro l
  induction l with
  | nil => intro y x h; simp [insSorted] at h; exact Or.inl h
  | cons a rest ih =>
    intro y x h
    simp only [insSorted] at h
    by_cases hle : strLeB y a
    · rw [if_pos hle] at h
      rcases List.mem_cons.mp h with rfl | h2
      · exact Or.inl rfl
      · exact Or.inr h2
    · rw [if_neg hle] at h
      rcases List.mem_cons.mp h with rfl | h2
      · exact Or.inr (List.mem_cons_self _ _)
      · rcases ih y x h2 with h3 | h3
        · exact Or.inl h3
        · exact Or.inr (List.mem_cons_of_mem _ h3)

/-- Insertion sort preserves membership sources. -/
theorem insSort_mem : ∀ (l : List String) (x : String), x ∈ insSort l → x ∈ l := by
  intro l
  induction l with
  | nil => intro x h; simp [insSort] at h
  | cons a rest ih =>
    intro x h
    rcases insSorted_mem _ _ _ h with rfl | h2
    · exact List.mem_cons_self _ _
    · exact List.mem_cons_of_mem _ (ih x h2)

/-- Adjacent deduplication preserves membership sources. -/
theorem dedupAdj_mem : ∀ (l : List String) (x : String), x ∈ dedupAdj l → x ∈ l := by
  intro l
  induction l with
  | nil => intro x h; simp [dedupAdj] at h
  | cons a rest ih =>
    intro x h
    cases rest with
    | nil => simpa [dedupAdj] using h
    | cons b r2 =>
      simp only [dedupAdj] at h
      by_cases hab : a = b
      · rw [if_pos hab] at h
        exact List.mem_cons_of_mem _ (ih x h)
      · rw [if_neg hab] at h
        rcases List.mem_cons.mp h with rfl | h2
        · exact List.mem_cons_self _ _
        · exact List.mem_cons_of_mem _ (ih x h2)

/-- `sorted(set(...))` draws its members from the original list. -/
theorem sortedDedup_mem (l : List String) (x : String) (h : x ∈ sortedDedup l) : x ∈ l :=
  insSort_mem l x (dedupAdj_mem _ x h)

/-- Heading lines distribute over a newline. -/
theorem hLinesL_append_nl (a b : List Char) :
    hLinesL (a ++ '\n' :: b) = hLinesL a ++ hLinesL b := by
  simp [hLinesL, splitSep_append_sep, List.filter_append]

/-- A single heading line (no newline, `###` prefix). -/
theorem hLinesL_heading (h : List Char) (hh : (("###").data).isPrefixOf h = true)
    (hnl : '\n' ∉ h) : hLinesL h = [h] := by
  simp [hLinesL, splitSep_no_sep '\n' h hnl, hh]

/-- A `#`-free fragment contributes no heading lines. -/
theorem hLinesL_noHash (b : List Char) (hb : '#' ∉ b) : hLinesL b = [] := by
  unfold hLinesL
  rw [List.filter_eq_nil_iff]
  intro l hl hpre
  cases l with
  | nil => simp [List.isPrefixOf] at hpre
  | cons c rest =>
    rw [show (("###").data).isPrefixOf (c :: rest) =
        (('#' == c) && (("##").data).isPrefixOf rest) from rfl, Bool.and_eq_true] at hpre
    have hc : c = '#' := by
      have := hpre.1
      simp only [beq_iff_eq] at this
      exact this.symm
    subst hc
    exact hb (splitSep_chars '\n' b _ hl '#' (List.mem_cons_self _ _))

/-- The heading lines of a rendered section are exactly its heading. -/
theorem hLinesL_mdSec (h b : String) (hh : (("###").data).isPrefixOf h.data = true)
    (hnl : '\n' ∉ h.data) (hb : '#' ∉ b.data) :
    hLinesL (mdSec h b).data = [h.data] := by
  have hdata : (mdSec h b).data = h.data ++ '\n' :: b.data := by
    show ((h ++ "\n") ++ b).data = _
    rw [strData_append, strData_append]
    simp [List.append_assoc]
  rw [hdata, hLinesL_append_nl, hLinesL_heading h.data hh hnl, hLinesL_noHash b.data hb]
  simp

/-- Heading lines of a blank-line intercalation are the concatenation of
the pieces' heading lines. -/
theorem hLinesL_interStr :
    ∀ (l : List String),
      hLinesL (interStr "\n\n" l).data = (l.map (fun x => hLinesL x.data)).flatten := by
  intro l
  induction l with
  | nil => rfl
  | cons x ys ih =>
    cases ys with
    | nil => simp [interStr]
    | cons y rest =>
      have hdata : (interStr "\n\n" (x :: y :: rest)).data =
          x.data ++ '\n' :: ('\n' :: (interStr "\n\n" (y :: rest)).data) := by
        show (x ++ "\n\n" ++ interStr "\n\n" (y :: rest)).data = _
        rw [strData_append, strData_append]
        simp [List.append_assoc]
      rw [hdata, hLinesL_append_nl,
        show ('\n' :: (interStr "\n\n" (y :: rest)).data) =
          [] ++ '\n' :: (interStr "\n\n" (y :: rest)).data from rfl,
        hLinesL_append_nl, ih]
      simp [show hLinesL ([] : List Char) = [] from rfl]

/-- `headingLines` through the character-level splitter. -/
theorem headingLines_eq (s : String) :
    headingLines s = (hLinesL s.data).map strOf := by
  show ((splitSep '\n' s.data).map strOf).filter isHeadingLine = _
  rw [List.filter_map]
  rfl

/-- No `#` in a concatenation, from the parts. -/
theorem noHash_append (a b : String) (ha : '#' ∉ a.data) (hb : '#' ∉ b.data) :
    '#' ∉ (a ++ b).data := by
  intro h
  rw [strData_append] at h
  rcases List.mem_append.mp h with h | h
  · exact ha h
  · exact hb h

/-- No `#` in a conditional string, from both branches. -/
theorem noHash_ite (c : Prop) [Decidable c] (a b : String) (ha : '#' ∉ a.data)
    (hb : '#' ∉ b.data) : '#' ∉ (if c then a else b).data := by
  split <;> assumption

/-- No `#` in an intercalation, from the separator and the pieces. -/
theorem noHash_interStr (sep : String) (l : List String) (hsep : '#' ∉ sep.data)
    (hl : ∀ e ∈ l, '#' ∉ e.data) : '#' ∉ (interStr sep l).data := by
  intro h
  rcases interStr_mem sep l '#' h with h | ⟨e, he, hce⟩
  · exact hsep h
  · exact hl e he hce

/-- All members of a conditional list satisfy a predicate, from both
branches. -/
theorem forall_mem_iteL {α : Type} (P : α → Prop) (c : Prop) [Decidable c]
    (l1 l2 : List α) (h1 : ∀ e ∈ l1, P e) (h2 : ∀ e ∈ l2, P e) :
    ∀ e ∈ (if c then l1 else l2), P e := by
  split <;> assumption

/-- Command buckets of the parser contain no `#` when the input has
none. -/
theorem noHash_cmdBucket (s : String) (hs : '#' ∉ s.data) (kw : List Char) (k : CapKind) :
    ∀ e ∈ (cmdFindall kw k (pyStrip s.data)).map (fun c => strOf (normWs c)),
      '#' ∉ e.data := by
  intro e he
  simp only [List.mem_map] at he
  obtain ⟨cap, hcap, rfl⟩ := he
  intro h
  rcases normWs_mem cap '#' h with h1 | h1
  · exact absurd h1 (by decide)
  · exact hs (pyStrip_subset _ _ (cmdFindAux_subset kw k _ _ cap hcap '#' h1))

/-- Token buckets contain no `#` (the classes exclude it). -/
theorem noHash_tokenBucket (s : String) (kw : List Char) (cls : Char → Bool)
    (quoted : Bool) (hcls : cls '#' = false) :
    ∀ e ∈ (tokenFindall kw cls quoted (pyStrip s.data)).map strOf, '#' ∉ e.data := by
  intro e he
  simp only [List.mem_map] at he
  obtain ⟨cap, hcap, rfl⟩ := he
  intro h
  have := tokenFindAux_cls kw cls quoted _ _ _ cap hcap '#' h
  rw [hcls] at this
  exact absurd this (by decide)

/-- A found time bound contains no `#`. -/
theorem noHash_tokenOpt (s : String) (kw : List Char) (cls : Char → Bool)
    (quoted : Bool) (hcls : cls '#' = false) (v : String)
    (h : (tokenSearch kw cls quoted (pyStrip s.data)).map strOf = some v) :
    '#' ∉ v.data := by
  intro hv
  cases hsr : tokenSearch kw cls quoted (pyStrip s.data) with
  | none => rw [hsr] at h; simp at h
  | some cap =>
    rw [hsr] at h
    simp only [Option.map_some', Option.some.injEq] at h
    subst h
    have := tokenSearchAux_cls kw cls quoted _ _ cap hsr '#' hv
    rw [hcls] at this
    exact absurd this (by decide)

/-- Join entries contain no `#` when the input has none. -/
theorem noHash_joinBucket (s : String) (hs : '#' ∉ s.data) :
    ∀ g ∈ (joinFindall (pyStrip s.data)).map
        (fun g => (strOf (normWs g.1), strOf (normWs g.2))),
      '#' ∉ g.1.data ∧ '#' ∉ g.2.data := by
  intro g hg
  simp only [List.mem_map] at hg
  obtain ⟨gg, hgg, rfl⟩ := hg
  obtain ⟨h1, h2⟩ := joinFindAux_subset _ _ gg hgg
  constructor <;> intro h <;>
    [rcases normWs_mem gg.1 '#' h with hm | hm; rcases normWs_mem gg.2 '#' h with hm | hm]
  · exact absurd hm (by decide)
  · exact hs (pyStrip_subset _ _ (h1 '#' hm))
  · exact absurd hm (by decide)
  · exact hs (pyStrip_subset _ _ (h2 '#' hm))

/-- `others` entries contain no `#` when the input has none. -/
theorem noHash_others (s : String) (hs : '#' ∉ s.data) :
    ∀ e ∈ collectOthers ((splitSep '|' (pyStrip s.data)).drop 1), '#' ∉ e.data := by
  intro e he h
  obtain ⟨seg, hseg, hcs⟩ := collectOthers_subset _ e he '#' h
  have hseg2 : seg ∈ splitSep '|' (pyStrip s.data) := (List.drop_sublist _ _).subset hseg
  exact hs (pyStrip_subset _ _ (splitSep_chars '|' _ seg hseg2 '#' hcs))

/-- The intent label contains no `#`. -/
theorem noHash_intent (s : String) : '#' ∉ (infer_intent s).data := by
  unfold infer_intent
  split_ifs <;> decide

/-- Vacuous membership in the empty list. -/
theorem forall_mem_nilL {α : Type} (P : α → Prop) : ∀ e ∈ ([] : List α), P e := by
  simp

/-- Membership in a singleton. -/
theorem forall_mem_singleL {α : Type} (P : α → Prop) (x : α) (hx : P x) :
    ∀ e ∈ [x], P e := by
  intro e he
  rw [List.mem_singleton.mp he]
  exact hx

/-- Deduplicated sorted index values contain no `#`. -/
theorem noHash_idxVals (s : String) :
    ∀ e ∈ sortedDedup (parse_spl s).overview.index, '#' ∉ e.data := by
  intro e he
  exact noHash_tokenBucket s (("index").data) isIndexVal false (by decide) e
    (sortedDedup_mem _ _ he)

/-- Deduplicated sorted sourcetype values contain no `#`. -/
theorem noHash_stypeVals (s : String) :
    ∀ e ∈ sortedDedup (parse_spl s).overview.sourcetype, '#' ∉ e.data := by
  intro e he
  exact noHash_tokenBucket s (("sourcetype").data) isStypeVal true (by decide) e
    (sortedDedup_mem _ _ he)

/-- The summary body contains no `#` (all its dynamic content is built
from class-restricted captures and fixed labels). -/
theorem noHash_secSummaryBody (s : String) :
    '#' ∉ (secSummaryBody (parse_spl s) s).data := by
  apply noHash_append _ _ (by decide)
  unfold summarize_spl
  dsimp only
  refine noHash_append _ _ (noHash_append _ _ (noHash_append _ _ (noHash_append _ _
    (noHash_append _ _ (by decide) ?_) (by decide)) ?_) (by decide)) (noHash_intent s)
  · refine noHash_ite _ _ _ (by decide) (noHash_interStr _ _ (by decide) ?_)
    refine List.forall_mem_append.mpr ⟨?_, ?_⟩
    · refine forall_mem_iteL _ _ _ _ (forall_mem_nilL _) (forall_mem_singleL _ _ ?_)
      exact noHash_append _ _ (by decide) (noHash_interStr _ _ (by decide) (noHash_idxVals s))
    · refine forall_mem_iteL _ _ _ _ (forall_mem_nilL _) (forall_mem_singleL _ _ ?_)
      exact noHash_append _ _ (by decide) (noHash_interStr _ _ (by decide) (noHash_stypeVals s))
  · refine noHash_interStr _ _ (by decide) ?_
    refine forall_mem_iteL _ _ _ _ (forall_mem_singleL _ _ (by decide)) ?_
    refine List.forall_mem_append.mpr ⟨List.forall_mem_append.mpr ⟨List.forall_mem_append.mpr
      ⟨List.forall_mem_append.mpr ⟨List.forall_mem_append.mpr ⟨List.forall_mem_append.mpr
        ⟨List.forall_mem_append.mpr ⟨List.forall_mem_append.mpr ⟨List.forall_mem_append.mpr
          ⟨List.forall_mem_append.mpr ⟨?_, ?_⟩, ?_⟩, ?_⟩, ?_⟩, ?_⟩, ?_⟩, ?_⟩, ?_⟩, ?_⟩, ?_⟩ <;>
      exact forall_mem_iteL _ _ _ _ (forall_mem_nilL _) (forall_mem_singleL _ _ (by decide))

/-- The intent body contains no `#`. -/
theorem noHash_secIntentBody (s : String) : '#' ∉ (secIntentBody s).data :=
  noHash_append _ _ (by decide) (noHash_intent s)

/-- The data-source body contains no `#`. -/
theorem noHash_secSourceBody (s : String) :
    '#' ∉ (secSourceBody (parse_spl s)).data := by
  unfold secSourceBody
  dsimp only
  refine noHash_append _ _ (noHash_append _ _ (noHash_append _ _ (noHash_append _ _
    (noHash_append _ _ (by decide) ?_) (by decide)) ?_) (by decide)) ?_
  · exact noHash_ite _ _ _ (by decide) (noHash_interStr _ _ (by decide) (noHash_idxVals s))
  · exact noHash_ite _ _ _ (by decide) (noHash_interStr _ _ (by decide) (noHash_stypeVals s))
  · refine noHash_ite _ _ _ (by decide) (noHash_interStr _ _ (by decide) ?_)
    refine List.forall_mem_append.mpr ⟨?_, ?_⟩
    · cases he : (parse_spl s).overview.earliest with
      | none => simp
      | some v =>
        intro e he2
        simp only [List.mem_singleton] at he2
        subst he2
        exact noHash_append _ _ (by decide)
          (noHash_tokenOpt s (("earliest").data) isTimeVal false (by decide) v he)
    · cases hl : (parse_spl s).overview.latest with
      | none => simp
      | some v =>
        intro e he2
        simp only [List.mem_singleton] at he2
        subst he2
        exact noHash_append _ _ (by decide)
          (noHash_tokenOpt s (("latest").data) isTimeVal false (by decide) v hl)

/-- The base-filter body contains no `#` when the input has none. -/
theorem noHash_secFilterBody (s : String) (hs : '#' ∉ s.data) :
    '#' ∉ (secFilterBody (parse_spl s)).data := by
  unfold secFilterBody
  dsimp only
  refine noHash_append _ _ (by decide)
    (noHash_ite _ _ _ (by decide) (noHash_interStr _ _ (by decide) ?_))
  refine List.forall_mem_append.mpr ⟨?_, ?_⟩
  · cases hst : (parse_spl s).ops.search_terms with
    | nil => simp
    | cons t rest =>
      intro e he
      simp only [List.mem_singleton] at he
      subst he
      have ht : e ∈ (parse_spl s).ops.search_terms := by
        rw [hst]; exact List.mem_cons_self _ _
      exact noHash_cmdBucket s hs (("search").data) (.lazyLA true) e ht
  · intro e he
    exact noHash_cmdBucket s hs (("where").data) (.lazyLA true) e he

/-- Every Operation Steps line contains no `#` when the input has none. -/
theorem noHash_steps (s : String) (hs : '#' ∉ s.data) :
    ∀ st ∈ stepsOf (parse_spl s), '#' ∉ st.data := by
  intro st hst
  rw [stepsOf_eq] at hst
  simp only [List.mem_append, or_assoc] at hst
  rcases hst with h|h|h|h|h|h|h|h|h|h|h
  · simp only [blockLines, List.mem_map] at h
    obtain ⟨it, hit, rfl⟩ := h
    exact noHash_append _ _ (by decide)
      (noHash_cmdBucket s hs (("eval").data) (.lazyLA true) it hit)
  · simp only [blockLines, List.mem_map] at h
    obtain ⟨it, hit, rfl⟩ := h
    exact noHash_append _ _ (by decide)
      (noHash_cmdBucket s hs (("transaction").data) .nonPipe it hit)
  · simp only [blockLines, List.mem_map] at h
    obtain ⟨it, hit, rfl⟩ := h
    exact noHash_append _ _ (by decide)
      (noHash_cmdBucket s hs (("stats").data) (.lazyLA true) it hit)
  · simp only [blockLines, List.mem_map] at h
    obtain ⟨it, hit, rfl⟩ := h
    exact noHash_append _ _ (by decide)
      (noHash_cmdBucket s hs (("timechart").data) (.lazyLA true) it hit)
  · simp only [blockLines, List.mem_map] at h
    obtain ⟨x, hx, rfl⟩ := h
    obtain ⟨jn, hjn, rfl⟩ := hx
    obtain ⟨h1, h2⟩ := noHash_joinBucket s hs jn hjn
    exact noHash_append _ _ (by decide)
      (noHash_append _ _ (noHash_append _ _ (noHash_append _ _ (by decide) h1)
        (by decide)) h2)
  · simp only [blockLines, List.mem_map] at h
    obtain ⟨it, hit, rfl⟩ := h
    exact noHash_append _ _ (by decide)
      (noHash_cmdBucket s hs (("lookup").data) (.lazyLA false) it hit)
  · simp only [blockLines, List.mem_map] at h
    obtain ⟨it, hit, rfl⟩ := h
    exact noHash_append _ _ (by decide)
      (noHash_cmdBucket s hs (("rex").data) (.lazyLA false) it hit)
  · simp only [blockLines, List.mem_map] at h
    obtain ⟨it, hit, rfl⟩ := h
    exact noHash_append _ _ (by decide)
      (noHash_cmdBucket s hs (("sort").data) (.lazyLA false) it hit)
  · simp only [blockLines, List.mem_map] at h
    obtain ⟨it, hit, rfl⟩ := h
    exact noHash_append _ _ (by decide)
      (noHash_cmdBucket s hs (("dedup").data) (.lazyLA false) it hit)
  · simp only [blockLines, List.mem_map] at h
    obtain ⟨it, hit, rfl⟩ := h
    have hor : it ∈ (parse_spl s).ops.tables ∨ it ∈ (parse_spl s).ops.fields_cmds := by
      split at hit
      · exact Or.inr hit
      · exact Or.inl hit
    refine noHash_append _ _ (by decide) ?_
    rcases hor with hit2 | hit2
    · exact noHash_cmdBucket s hs (("table").data) (.lazyLA false) it hit2
    · exact noHash_cmdBucket s hs (("fields").data) (.lazyLA false) it hit2
  · simp only [blockLines, List.mem_map] at h
    obtain ⟨it, hit, rfl⟩ := h
    exact noHash_append _ _ (by decide) (noHash_others s hs it hit)

/-- The Operation Steps body contains no `#` when the input has none. -/
theorem noHash_secStepsBody (s : String) (hs : '#' ∉ s.data) :
    '#' ∉ (secStepsBody (parse_spl s)).data := by
  unfold secStepsBody
  exact noHash_ite _ _ _ (by decide) (noHash_interStr _ _ (by decide) (noHash_steps s hs))

/-- The tuning body contains no `#` when the input has none. -/
theorem noHash_secTuningBody (s : String) (hs : '#' ∉ s.data) :
    '#' ∉ (secTuningBody (parse_spl s) s).data := by
  unfold secTuningBody
  dsimp only
  refine noHash_append _ _ (by decide)
    (noHash_ite _ _ _ (by decide) (noHash_interStr _ _ (by decide) ?_))
  refine List.forall_mem_append.mpr ⟨List.forall_mem_append.mpr ⟨?_, ?_⟩, ?_⟩
  · cases hms : maxspanSearch s.data with
    | none => simp
    | some v =>
      intro e he
      simp only [List.mem_singleton] at he
      subst he
      refine noHash_append _ _ (noHash_append _ _ (by decide) ?_) (by decide)
      intro h
      exact absurd (maxspanSearch_cls _ _ hms '#' h) (by decide)
  · intro e he
    simp only [List.mem_map, List.mem_filter] at he
    obtain ⟨w, ⟨hw, _⟩, rfl⟩ := he
    exact noHash_append _ _ (by decide)
      (noHash_cmdBucket s hs (("where").data) (.lazyLA true) w hw)
  · intro e he
    simp only [List.mem_map, List.mem_filter] at he
    obtain ⟨x, _, rfl⟩ := he
    decide

/-- The false-positive body contains no `#`. -/
theorem noHash_secFpBody (s : String) : '#' ∉ (secFpBody s).data := by
  unfold secFpBody
  dsimp only
  refine noHash_append _ _ (by decide) (noHash_interStr _ _ (by decide) ?_)
  refine forall_mem_iteL _ _ _ _ (forall_mem_singleL _ _ (by decide)) ?_
  refine List.forall_mem_append.mpr ⟨List.forall_mem_append.mpr ⟨?_, ?_⟩, ?_⟩ <;>
    exact forall_mem_iteL _ _ _ _ (forall_mem_singleL _ _ (by decide)) (forall_mem_nilL _)

/-- The output-fields body contains no `#` when the input has none. -/
theorem noHash_secOutBody (s : String) (hs : '#' ∉ s.data) :
    '#' ∉ (secOutBody (parse_spl s)).data := by
  unfold secOutBody
  refine noHash_append _ _ (by decide)
    (noHash_ite _ _ _ (by decide) (noHash_interStr _ _ (by decide) ?_))
  refine forall_mem_iteL _ _ _ _ ?_ ?_
  · intro e he
    exact noHash_cmdBucket s hs (("fields").data) (.lazyLA false) e (List.take_subset _ _ he)
  · intro e he
    exact noHash_cmdBucket s hs (("table").data) (.lazyLA false) e (List.take_subset _ _ he)

/-- Warnings are fixed strings with no `#`. -/
theorem noHash_warnings (s : String) : ∀ w ∈ validate_spl (parse_spl s), '#' ∉ w.data := by
  unfold validate_spl
  dsimp only
  refine List.forall_mem_append.mpr ⟨List.forall_mem_append.mpr ⟨List.forall_mem_append.mpr
    ⟨List.forall_mem_append.mpr ⟨List.forall_mem_append.mpr ⟨?_, ?_⟩, ?_⟩, ?_⟩, ?_⟩, ?_⟩ <;>
    first
    | exact forall_mem_iteL _ _ _ _ (forall_mem_singleL _ _ (by decide)) (forall_mem_nilL _)
    | exact forall_mem_iteL _ _ _ _ (forall_mem_nilL _) (forall_mem_singleL _ _ (by decide))

/-- The validation body contains no `#`. -/
theorem noHash_secValidBody (s : String) : '#' ∉ (secValidBody (parse_spl s)).data := by
  unfold secValidBody
  exact noHash_append _ _ (by decide)
    (noHash_ite _ _ _ (by decide) (noHash_interStr _ _ (by decide) (noHash_warnings s)))

/-- C2 amended: for every input containing no `#` character, the document
produced by the full rule-based renderer has exactly the nine fixed
section headings, once each, in the fixed order. -/
theorem c2_nine_headings (s : String) (hs : '#' ∉ s.data) :
    headingLines (explain_spl_to_markdown_full s) = nineHeadings := by
  rw [headingLines_eq]
  unfold explain_spl_to_markdown_full mkMdBase
  rw [hLinesL_interStr]
  simp only [List.map_cons, List.map_nil, List.flatten_cons, List.flatten_nil]
  rw [hLinesL_interStr]
  simp only [List.map_cons, List.map_nil, List.flatten_cons, List.flatten_nil]
  rw [hLinesL_mdSec ("### 쿼리 전체 설명") (secSummaryBody (parse_spl s) s)
      (by decide) (by decide) (noHash_secSummaryBody s),
    hLinesL_mdSec ("### 요약 Intent") (secIntentBody s)
      (by decide) (by decide) (noHash_secIntentBody s),
    hLinesL_mdSec ("### 데이터 소스") (secSourceBody (parse_spl s))
      (by decide) (by decide) (noHash_secSourceBody s),
    hLinesL_mdSec ("### 기본 필터") (secFilterBody (parse_spl s))
      (by decide) (by decide) (noHash_secFilterBody s hs),
    hLinesL_mdSec ("### 연산 단계") (secStepsBody (parse_spl s))
      (by decide) (by decide) (noHash_secStepsBody s hs),
    hLinesL_mdSec ("### 임계/튜닝 포인트") (secTuningBody (parse_spl s) s)
      (by decide) (by decide) (noHash_secTuningBody s hs),
    hLinesL_mdSec ("### 오탐 가능성") (secFpBody s)
      (by decide) (by decide) (noHash_secFpBody s),
    hLinesL_mdSec ("### 출력/결과 필드") (secOutBody (parse_spl s))
      (by decide) (by decide) (noHash_secOutBody s hs),
    hLinesL_mdSec ("### 검증 결과") (secValidBody (parse_spl s))
      (by decide) (by decide) (noHash_secValidBody s)]
  rfl

/-- C2 witness: a `#`-free query renders the nine headings. -/
theorem c2_nine_headings_witness :
    headingLines (explain_spl_to_markdown_full ("index=main | stats count")) =
      nineHeadings :=
  c2_nine_headings ("index=main | stats count") (by decide)

end SkLlm
